import Mathlib

/-!
Verification development for the renterd slab placement engine
(worker package: `parallelUploadSlab`, `uploadSlab`, `parallelDownloadSlab`,
`downloadSlab`, `slabsForDownload`, `deleteSlabs`, `migrateSlab`).

The concurrent fan-out/fan-in loops are embedded as deterministic
fuel-indexed loops parameterised by
  - an outcome oracle assigning each spawned task its host-side result,
  - a slow flag per task (`true` means the per-task timeout fires before
    the task's own completion, producing the synthetic timeout response
    followed later by the task's real response), and
  - a schedule (a list of naturals) choosing, at each loop iteration,
    which pending response is received next.
The pending list holds one entry per response not yet received; since every
pending entry corresponds to exactly one outstanding genuine completion
(a pending timeout event implies the task's real response is still to come),
the Go loop's `inflight` counter always equals the length of the pending
list, and the loop condition `rem > 0 && inflight > 0` is rendered as
`rem ≠ 0 ∧ pending ≠ []`.

The erasure/encryption codec and the sector size live outside the engine
(the `object` and `rhpv2` packages); they are modelled from the spec where
needed, with the sector size kept as an abstract positive parameter.
-/

namespace Renterd

/-- Contract metadata: contract id, host public key, host address
(`api.ContractMetadata`). Keys and addresses are modelled as naturals. -/
structure Contract where
  fcid : Nat
  hostKey : Nat
  hostIP : Nat
deriving DecidableEq, Repr

instance : Inhabited Contract := ⟨⟨0, 0, 0⟩⟩

/-- A sector placement (`object.Sector`): host key and content root.
The root `0` plays the role of the all-zero `types.Hash256{}` sentinel. -/
structure Sector where
  host : Nat
  root : Nat
deriving DecidableEq, Repr

instance : Inhabited Sector := ⟨⟨0, 0⟩⟩

/-- A slab (`object.Slab`): encryption key, minimum shard count and the
ordered shard placements. -/
structure Slab where
  key : Nat
  minShards : Nat
  shards : List Sector
deriving DecidableEq, Repr

instance : Inhabited Slab := ⟨⟨0, 0, []⟩⟩

/-- A byte range view into a slab (`object.SlabSlice`). -/
structure SlabSlice where
  slab : Slab
  offset : Nat
  length : Nat
deriving DecidableEq, Repr

instance : Inhabited SlabSlice := ⟨⟨default, 0, 0⟩⟩

/-- Classification of a per-task error: the synthetic sector-operation
timeout, the `errUnusedHost` mismatch of the download path, or any other
host/lock failure carried as a numeric code. -/
inductive OpErr where
  | timeout
  | unused
  | fail (code : Nat)
deriving DecidableEq, Repr

/-- One entry of a `HostErrorSet`: the failing host's key and its error. -/
structure HostError where
  hostKey : Nat
  err : OpErr
deriving DecidableEq, Repr

/-- Failure of an upload batch: the up-front precondition error
(`not enough hosts to upload slab`), the accumulated `HostErrorSet`,
or the fatal read error of `uploadSlab` (`io.ReadFull` returning `io.EOF`). -/
inductive UploadFailure where
  | notEnoughHosts
  | hostErrors (errs : List HostError)
  | readError
deriving DecidableEq, Repr

/-- Failure of a download batch: the precondition error
(`not enough hosts to recover slab`) or the accumulated `HostErrorSet`. -/
inductive DownloadFailure where
  | notEnoughHosts
  | hostErrors (errs : List HostError)
deriving DecidableEq, Repr

/-- A pending upload response event: the task's contract, its shard index,
and whether this event is the synthetic timeout response (`true`) or the
task's real response (`false`). -/
structure UpEv where
  contract : Contract
  shard : Nat
  timeoutEv : Bool
deriving DecidableEq, Repr

instance : Inhabited UpEv := ⟨⟨default, 0, false⟩⟩

/-- Spawning an upload task for `(c, i)`: if the task is slow its first
published response is the synthetic timeout, otherwise its real response. -/
def uploadSpawn (slow : Contract → Nat → Bool) (c : Contract) (i : Nat) : UpEv :=
  ⟨c, i, slow c i⟩

/-- The last index at which `k` occurs as a host key in `contracts`
(`0` when absent) — the value stored by the Go loop
`for i, c := range contracts { hostsMap[c.HostKey] = i }`. -/
def lastIndexOfKey (contracts : List Contract) (k : Nat) : Nat :=
  (List.range contracts.length).foldl
    (fun acc i => if (contracts.getD i default).hostKey = k then i else acc) 0

/-- The slow host indices extracted from an accumulated error list: one
entry per recorded timeout error, resolved through the host→index map. -/
def slowHostIndices (contracts : List Contract) (errs : List HostError) : List Nat :=
  errs.filterMap (fun he =>
    if he.err = OpErr.timeout then some (lastIndexOfKey contracts he.hostKey) else none)

/-- The response-collection loop of `parallelUploadSlab`.  Arguments after
the oracles and candidate list: remaining fuel, schedule, pending response
events, next candidate index (`hostIndex`), the sectors array, the count of
unsatisfied shards (`rem`) and the accumulated errors.  One iteration
receives the scheduled pending response and mirrors the Go loop body:
a timeout response records a `HostError`, retries on the next candidate if
any and leaves the task's real response pending; a real error response
records a `HostError` and retries on the next candidate if any; a success
response is recorded only while the shard's slot still holds the all-zero
sentinel root, decrementing `rem`. -/
def uploadLoop (outcome : Contract → Nat → Nat × Option Nat) (slow : Contract → Nat → Bool)
    (contracts : List Contract) :
    Nat → List Nat → List UpEv → Nat → List Sector → Nat → List HostError →
    Except (List HostError) (List Sector × List HostError)
  | 0, _, _, _, _, _, errs => .error errs
  | fuel + 1, sched, pending, hostIndex, sectors, rem, errs =>
    if rem = 0 then .ok (sectors, errs)
    else if pending.isEmpty then .error errs
    else
      let k := sched.headD 0 % pending.length
      let ev := pending.getD k default
      let rest := pending.eraseIdx k
      if ev.timeoutEv then
        uploadLoop outcome slow contracts fuel sched.tail
          ((if hostIndex < contracts.length then
              rest ++ [uploadSpawn slow (contracts.getD hostIndex default) ev.shard]
            else rest) ++ [⟨ev.contract, ev.shard, false⟩])
          (if hostIndex < contracts.length then hostIndex + 1 else hostIndex)
          sectors rem (errs ++ [⟨ev.contract.hostKey, OpErr.timeout⟩])
      else
        match (outcome ev.contract ev.shard).2 with
        | some code =>
          uploadLoop outcome slow contracts fuel sched.tail
            (if hostIndex < contracts.length then
               rest ++ [uploadSpawn slow (contracts.getD hostIndex default) ev.shard]
             else rest)
            (if hostIndex < contracts.length then hostIndex + 1 else hostIndex)
            sectors rem (errs ++ [⟨ev.contract.hostKey, OpErr.fail code⟩])
        | none =>
          if (sectors.getD ev.shard default).root = 0 then
            uploadLoop outcome slow contracts fuel sched.tail rest hostIndex
              (sectors.set ev.shard ⟨ev.contract.hostKey, (outcome ev.contract ev.shard).1⟩)
              (rem - 1) errs
          else
            uploadLoop outcome slow contracts fuel sched.tail rest hostIndex sectors rem errs

/-- The function `parallelUploadSlab`: precondition-check the candidate count, spawn one
task per shard on the first `shards.length` candidates, run the collection
loop, and on success extract the slow host indices from the recorded
timeout errors. -/
def parallelUploadSlab (outcome : Contract → Nat → Nat × Option Nat)
    (slow : Contract → Nat → Bool) (shards : List (List Nat))
    (contracts : List Contract) (sched : List Nat) :
    Except UploadFailure (List Sector × List Nat) :=
  if contracts.length < shards.length then .error .notEnoughHosts
  else
    match uploadLoop outcome slow contracts (2 * contracts.length + 2) sched
      ((List.range shards.length).map (fun i => uploadSpawn slow (contracts.getD i default) i))
      shards.length
      (List.replicate shards.length ⟨0, 0⟩)
      shards.length [] with
    | .error errs => .error (.hostErrors errs)
    | .ok (sectors, errs) => .ok (sectors, slowHostIndices contracts errs)

/-- Modelled from the spec: the erasure encode step
(`encode(plaintext, numDataShards, numTotalShards) -> shards`, §6), over an
abstract sector size `S` — `rhpv2.SectorSize` is outside the sources.  The
padded plaintext buffer is striped byte-wise across the `m` data shards
(byte `x` lands in shard `x % m` at position `x / m`), and the `n - m`
parity shards are deterministic filler.  Striping makes the byte region a
slice needs identical across sectors, as the spec's `SectorRegion` remark
requires. -/
def encodeSlab (S m n : Nat) (buf : List Nat) : List (List Nat) :=
  (List.range n).map (fun j =>
    if j < m then (List.range S).map (fun u => buf.getD (u * m + j) 0)
    else List.replicate S 0)

/-- Modelled from the spec: `encrypt(shards, key)` (§6), a deterministic
per-byte keystream addition, the same for every position. -/
def encryptShards (key : Nat) (shards : List (List Nat)) : List (List Nat) :=
  shards.map (List.map (fun b => b + key))

/-- Modelled from the spec: `decrypt(shards, key)` (§6), the inverse of
`encryptShards`. -/
def decryptShards (key : Nat) (shards : List (List Nat)) : List (List Nat) :=
  shards.map (List.map (fun b => b - key))

/-- Modelled from the spec: `SlabSlice.SectorRegion` — the byte region
within a full sector implied by the slice's offset/length (§4.3).  With
byte-wise striping over `m` data shards, plaintext bytes `[off, off+len)`
live, in every needed sector, inside the region
`[off / m, ceil((off+len)/m))`. -/
def sectorRegion (m off len : Nat) : Nat × Nat :=
  (off / m, (off + len + m - 1) / m - off / m)

/-- Modelled from the spec: `recover(outputSink, shards)` (§6) — reassemble
the plaintext byte range `[off, off+len)` from downloaded sector regions,
honoring the slice's offset/length.  Each shard buffer holds its sector's
region starting at sector offset `off / m`. -/
def recoverSlab (m off len : Nat) (shards : List (List Nat)) : List Nat :=
  (List.range len).map (fun t =>
    (shards.getD ((off + t) % m) []).getD ((off + t) / m - off / m) 0)

/-- Modelled from the spec: `reconstruct(partialShards)` (§6) — fill in all
shards given at least `MinShards` valid ones.  The model can rebuild
whenever the `m` data shards are all present (the parity filler carries no
information), and reports failure otherwise. -/
def reconstructModel (S m n : Nat) (shards : List (List Nat)) : Option (List (List Nat)) :=
  if (List.range m).all (fun j => !(shards.getD j []).isEmpty) then
    some (encodeSlab S m n ((List.range (m * S)).map
      (fun x => (shards.getD (x % m) []).getD (x / m) 0)))
  else none

/-- The function `uploadSlab`: read up to `m * S` bytes from the plaintext stream
(`io.ReadFull`; an empty stream yields `io.EOF`, which is fatal, while a
short read yields the tolerated `io.ErrUnexpectedEOF`), encode into `n`
shards under the fresh key, encrypt, and place the shards through
`parallelUploadSlab`.  Returns the slab, the number of plaintext bytes
consumed and the slow host indices. -/
def uploadSlab (S key m n : Nat) (P : List Nat)
    (outcome : Contract → Nat → Nat × Option Nat) (slow : Contract → Nat → Bool)
    (contracts : List Contract) (sched : List Nat) :
    Except UploadFailure (Slab × Nat × List Nat) :=
  let bufLen := m * S
  if P.length = 0 ∧ 0 < bufLen then .error .readError
  else
    let buf := P.take bufLen ++ List.replicate (bufLen - P.length) 0
    match parallelUploadSlab outcome slow (encryptShards key (encodeSlab S m n buf))
        contracts sched with
    | .error e => .error e
    | .ok (sectors, slowHosts) =>
      .ok (⟨key, m, sectors⟩, min P.length bufLen, slowHosts)

/-- A pending download response event: the task's candidate index
(`req.hostIndex`) and whether this event is the synthetic timeout
response. -/
structure DnEv where
  hostIndex : Nat
  timeoutEv : Bool
deriving DecidableEq, Repr

instance : Inhabited DnEv := ⟨⟨0, false⟩⟩

/-- Spawning a download task for candidate index `h`. -/
def downloadSpawn (slow : Nat → Bool) (h : Nat) : DnEv :=
  ⟨h, slow h⟩

/-- The real (non-timeout) response of the download task for candidate
index `h`: acquire the contract lock (`lockRes`), locate the first shard of
the slice held by this host (`errUnusedHost` when there is none), and run
`DownloadSector` on its root over the slice's sector region (`dlRes`). -/
def downloadTaskResult (ss : SlabSlice) (contracts : List Contract)
    (lockRes : Nat → Option Nat) (dlRes : Nat → Nat → Nat → Nat → Except Nat (List Nat))
    (h : Nat) : Except OpErr (List Nat) :=
  let c := contracts.getD h default
  match lockRes h with
  | some code => .error (.fail code)
  | none =>
    match ss.slab.shards.find? (fun sec => sec.host == c.hostKey) with
    | none => .error .unused
    | some shard =>
      let region := sectorRegion ss.slab.minShards ss.offset ss.length
      match dlRes h shard.root region.1 region.2 with
      | .error code => .error (.fail code)
      | .ok bytes => .ok bytes

/-- The index the collection loop stores a successful download response
into: the first shard index whose host matches the responding candidate's
key and whose buffer is still empty (`len(shards[i]) == 0`); `none` leaves
the response unrecorded. -/
def findFillIdx (slabShards : List Sector) (filled : List (List Nat)) (key : Nat) :
    Option Nat :=
  (List.range slabShards.length).find? (fun i =>
    (slabShards.getD i default).host == key && (filled.getD i []).isEmpty)

/-- The response-collection loop of `parallelDownloadSlab`; the shape of
`uploadLoop` with the download-specific success recording. -/
def downloadLoop (ss : SlabSlice) (lockRes : Nat → Option Nat)
    (dlRes : Nat → Nat → Nat → Nat → Except Nat (List Nat)) (slow : Nat → Bool)
    (contracts : List Contract) :
    Nat → List Nat → List DnEv → Nat → List (List Nat) → Nat → List HostError →
    Except (List HostError) (List (List Nat) × List HostError)
  | 0, _, _, _, _, _, errs => .error errs
  | fuel + 1, sched, pending, hostIndex, shards, rem, errs =>
    if rem = 0 then .ok (shards, errs)
    else if pending.isEmpty then .error errs
    else
      let k := sched.headD 0 % pending.length
      let ev := pending.getD k default
      let rest := pending.eraseIdx k
      let key := (contracts.getD ev.hostIndex default).hostKey
      if ev.timeoutEv then
        downloadLoop ss lockRes dlRes slow contracts fuel sched.tail
          ((if hostIndex < contracts.length then rest ++ [downloadSpawn slow hostIndex]
            else rest) ++ [⟨ev.hostIndex, false⟩])
          (if hostIndex < contracts.length then hostIndex + 1 else hostIndex)
          shards rem (errs ++ [⟨key, OpErr.timeout⟩])
      else
        match downloadTaskResult ss contracts lockRes dlRes ev.hostIndex with
        | .error e =>
          downloadLoop ss lockRes dlRes slow contracts fuel sched.tail
            (if hostIndex < contracts.length then rest ++ [downloadSpawn slow hostIndex]
             else rest)
            (if hostIndex < contracts.length then hostIndex + 1 else hostIndex)
            shards rem (errs ++ [⟨key, e⟩])
        | .ok bytes =>
          match findFillIdx ss.slab.shards shards key with
          | some i =>
            downloadLoop ss lockRes dlRes slow contracts fuel sched.tail rest hostIndex
              (shards.set i bytes) (rem - 1) errs
          | none =>
            downloadLoop ss lockRes dlRes slow contracts fuel sched.tail rest hostIndex
              shards rem errs

/-- The function `parallelDownloadSlab`: precondition-check that at least `MinShards`
candidates exist, spawn one task per required shard on the first
`MinShards` candidates, run the collection loop, and on success extract the
slow host indices. -/
def parallelDownloadSlab (lockRes : Nat → Option Nat)
    (dlRes : Nat → Nat → Nat → Nat → Except Nat (List Nat)) (slow : Nat → Bool)
    (ss : SlabSlice) (contracts : List Contract) (sched : List Nat) :
    Except DownloadFailure (List (List Nat) × List Nat) :=
  if contracts.length < ss.slab.minShards then .error .notEnoughHosts
  else
    match downloadLoop ss lockRes dlRes slow contracts (2 * contracts.length + 2) sched
      ((List.range ss.slab.minShards).map (downloadSpawn slow))
      ss.slab.minShards
      (List.replicate ss.slab.shards.length [])
      ss.slab.minShards [] with
    | .error errs => .error (.hostErrors errs)
    | .ok (shards, errs) => .ok (shards, slowHostIndices contracts errs)

/-- The function `downloadSlab`: run `parallelDownloadSlab` over the slice, decrypt the
retrieved shards and recover the requested plaintext byte range. -/
def downloadSlab (lockRes : Nat → Option Nat)
    (dlRes : Nat → Nat → Nat → Nat → Except Nat (List Nat)) (slow : Nat → Bool)
    (ss : SlabSlice) (contracts : List Contract) (sched : List Nat) :
    Except DownloadFailure (List Nat × List Nat) :=
  match parallelDownloadSlab lockRes dlRes slow ss contracts sched with
  | .error e => .error e
  | .ok (shards, slowHosts) =>
    .ok (recoverSlab ss.slab.minShards ss.offset ss.length
      (decryptShards ss.slab.key shards), slowHosts)

/-- Conversion `uint32(v)` for an `int64` value: reduction modulo `2^32` into
`[0, 2^32)`. -/
def u32 (v : Int) : Nat := (v % (2 ^ 32 : Int)).toNat

/-- Wrapping `uint32` addition. -/
def add32 (a b : Nat) : Nat := (a + b) % 2 ^ 32

/-- Wrapping `uint32` subtraction. -/
def sub32 (a b : Nat) : Nat := u32 ((a : Int) - (b : Int))

/-- The shared shape of the two scan loops of `slabsForDownload`: walk the
slices, subtracting each `Length` from the running value, until the value
no longer exceeds the current slice's `Length`.  Returns the break index
(`none` when the loop runs off the end without breaking) and the running
value at that point. -/
def scanBreak : List SlabSlice → Int → Option Nat × Int
  | [], v => (none, v)
  | s :: rest, v =>
    if v ≤ (s.length : Int) then (some 0, v)
    else
      let p := scanBreak rest (v - (s.length : Int))
      (p.1.map (· + 1), p.2)

/-- The function `slabsForDownload`: trim a slice sequence to the slices overlapping the
byte span `(offset, length)`, adjusting the first slice's `Offset`/`Length`
and the last slice's `Length` with `uint32` arithmetic.  The Go function
first takes a defensive copy of the caller's slice
(`append([]object.SlabSlice(nil), slabs...)`), so all writes below land on
the copy; it panics on an empty input (modelled as `[]`). -/
def slabsForDownload (slabs : List SlabSlice) (offset length : Int) : List SlabSlice :=
  match slabs with
  | [] => []
  | _ :: _ =>
    let p1 := scanBreak slabs offset
    let s1 := match p1.1 with
      | some i => slabs.drop i
      | none => slabs
    let s2 := match s1 with
      | [] => []
      | h :: t =>
        { h with offset := add32 h.offset (u32 p1.2),
                 length := sub32 h.length (u32 p1.2) } :: t
    let p2 := scanBreak s2 length
    let s3 := match p2.1 with
      | some i => s2.take (i + 1)
      | none => s2
    match s3 with
    | [] => []
    | _ :: _ =>
      s3.dropLast ++ [{ s3.getLastD default with length := u32 p2.2 }]

/-- The roots owned by host `pk` across `slabs`, in slab/shard order — the
entry `rootsBysectorStore[pk]` built by `deleteSlabs` (`nil`, i.e. `[]`,
for a host owning none). -/
def hostRoots (slabs : List Slab) (pk : Nat) : List Nat :=
  (slabs.flatMap (fun s => s.shards)).filterMap
    (fun sec => if sec.host = pk then some sec.root else none)

/-- The function `deleteSlabs`: group roots by owning host, issue one batch
`DeleteSectors` call per host session (a host owning no roots receives the
empty batch), collect per-host errors, and fail with the `HostErrorSet`
exactly when it is non-empty.  `hosts` lists the pre-opened sessions by
host key; `delRes pk roots` is the per-host call result.  The first
component records every call issued, with its argument. -/
def deleteSlabs (slabs : List Slab) (hosts : List Nat)
    (delRes : Nat → List Nat → Option Nat) :
    List (Nat × List Nat) × Option (List HostError) :=
  let calls := hosts.map (fun pk => (pk, hostRoots slabs pk))
  let errs := hosts.filterMap (fun pk =>
    (delRes pk (hostRoots slabs pk)).map (fun code => HostError.mk pk (OpErr.fail code)))
  (calls, if errs.isEmpty then none else some errs)

/-- The single pass of `migrateSlab` over the slab's shards: collect the
indices needing migration (host not in the candidate set, or host already
claimed by an earlier shard) and the keys of the used (surviving good)
hosts, earliest shard winning ties. -/
def migrationIndices (s : Slab) (contracts : List Contract) : List Nat × List Nat :=
  let good := contracts.map (fun c => c.hostKey)
  (List.range s.shards.length).foldl
    (fun acc i =>
      let sh := s.shards.getD i default
      if !(good.contains sh.host) then (acc.1 ++ [i], acc.2)
      else if acc.2.contains sh.host then (acc.1 ++ [i], acc.2)
      else (acc.1, acc.2 ++ [sh.host]))
    ([], [])

/-- Stable insertion of `a` before the first element of strictly greater
key — the building block of a stable ascending sort. -/
def insertByKey (key : Contract → Nat) (a : Contract) : List Contract → List Contract
  | [] => [a]
  | b :: l => if key a ≤ key b then a :: b :: l else b :: insertByKey key a l

/-- Stable ascending sort by `key` (the behaviour of `sort.SliceStable`
with `less(i,j) = key i < key j`). -/
def stableSortByKey (key : Contract → Nat) : List Contract → List Contract
  | [] => []
  | a :: l => insertByKey key a (stableSortByKey key l)

/-- The replacement-candidate construction of `migrateSlab`, with the Go
slice aliasing rendered explicitly.  `filtered := contracts[:0]` shares the
backing array with `contracts`: after the filtering append loop the array
holds the non-used contracts followed by the residue `contracts[k:]` of the
original list.  `frand.Shuffle` then permutes the `filtered` prefix
(`shuffle` is the permutation actually drawn), the slow-host counts are
read from the *mutated* array, `sort.SliceStable` reorders the *entire*
backing array by slow count, and the `filtered` header — the first `k`
entries of the sorted array — is what the re-upload receives. -/
def buildReplacement (contracts : List Contract) (used : List Nat)
    (shuffle : List Contract → List Contract) (slowIdxs : List Nat) : List Contract :=
  let filtered := contracts.filter (fun c => !(used.contains c.hostKey))
  let k := filtered.length
  let arr1 := shuffle filtered ++ contracts.drop k
  let slowCount : Nat → Nat := fun key =>
    (slowIdxs.filter (fun h => (arr1.getD h default).hostKey = key)).length
  (stableSortByKey (fun c => slowCount c.hostKey) arr1).take k

/-- The error classes of `migrateSlab`. -/
inductive MigErr where
  | notEnoughDownloadHosts
  | notEnoughMigrationHosts
  | downloadFailed
  | reconstructFailed
  | uploadFailed
deriving DecidableEq, Repr

/-- The observable outcome of a `migrateSlab` call: the slab (`*s` after
the call — overwritten only on full success), the error if any, whether the
download step was reached, and the candidate list handed to the re-upload
when one was. -/
structure MigOut where
  slab : Slab
  err : Option MigErr
  downloaded : Bool
  uploadCandidates : Option (List Contract)
deriving DecidableEq, Repr

/-- The function `migrateSlab`: detect the shard indices needing migration, sanity-check
against `MinShards` and the candidate count, download and reconstruct the
slab, re-encrypt, build the replacement candidate list, re-upload the
migrated shards and overwrite their slots.  `reconstructFn` stands for the
external codec's reconstruction; the oracles and schedules are those of the
embedded download and upload batches. -/
def migrateSlab (S : Nat) (lockRes : Nat → Option Nat)
    (dlRes : Nat → Nat → Nat → Nat → Except Nat (List Nat)) (dslow : Nat → Bool)
    (upOutcome : Contract → Nat → Nat × Option Nat) (uslow : Contract → Nat → Bool)
    (shuffle : List Contract → List Contract)
    (reconstructFn : List (List Nat) → Option (List (List Nat)))
    (schedD schedU : List Nat) (s : Slab) (contracts : List Contract) : MigOut :=
  let mi := migrationIndices s contracts
  let idxs := mi.1
  let used := mi.2
  if idxs.isEmpty then ⟨s, none, false, none⟩
  else if s.shards.length - idxs.length < s.minShards then
    ⟨s, some .notEnoughDownloadHosts, false, none⟩
  else if contracts.length < idxs.length then
    ⟨s, some .notEnoughMigrationHosts, false, none⟩
  else
    let ss : SlabSlice := ⟨s, 0, s.minShards * S⟩
    match parallelDownloadSlab lockRes dlRes dslow ss contracts schedD with
    | .error _ => ⟨s, some .downloadFailed, true, none⟩
    | .ok (dshards, slowHosts) =>
      match reconstructFn (decryptShards s.key dshards) with
      | none => ⟨s, some .reconstructFailed, true, none⟩
      | some rec0 =>
        let enc := encryptShards s.key rec0
        let migShards := idxs.map (fun si => enc.getD si [])
        let cands := buildReplacement contracts used shuffle slowHosts
        match parallelUploadSlab upOutcome uslow migShards cands schedU with
        | .error _ => ⟨s, some .uploadFailed, true, some cands⟩
        | .ok (uploaded, _) =>
          ⟨⟨s.key, s.minShards,
            (List.range idxs.length).foldl
              (fun acc i => acc.set (idxs.getD i 0) (uploaded.getD i default)) s.shards⟩,
            none, true, some cands⟩

/-! ### Generic list helpers -/

lemma map_eraseIdx {α β : Type} (f : α → β) :
    ∀ (l : List α) (k : Nat), (l.map f).eraseIdx k = (l.eraseIdx k).map f
  | [], _ => by simp
  | _ :: _, 0 => by simp [List.eraseIdx]
  | a :: t, k + 1 => by simp [List.eraseIdx, map_eraseIdx f t k]

lemma getD_map_lt {α β : Type} [Inhabited α] [Inhabited β] (f : α → β) (l : List α)
    (k : Nat) (h : k < l.length) :
    (l.map f).getD k default = f (l.getD k default) := by
  rw [List.getD_eq_getElem _ _ (by simpa using h), List.getD_eq_getElem _ _ h,
    List.getElem_map]

lemma getD_mem {α : Type} [Inhabited α] {l : List α} {k : Nat} (h : k < l.length) :
    l.getD k default ∈ l := by
  rw [List.getD_eq_getElem _ _ h]; exact List.getElem_mem h

lemma find?_eq_of_unique {α : Type} (p : α → Bool) :
    ∀ (l : List α) (i : Nat) (hi : i < l.length),
      p (l.get ⟨i, hi⟩) = true → (∀ j, j < i → ∀ hj : j < l.length, p (l.get ⟨j, hj⟩) = false) →
      l.find? p = some (l.get ⟨i, hi⟩)
  | [], i, hi => by simp at hi
  | a :: t, 0, hi => fun hp _ => by simpa [List.find?] using by simp_all
  | a :: t, i + 1, hi => fun hp hprev => by
    have ha : p a = false := by simpa using hprev 0 (by omega) (by omega)
    have ht := find?_eq_of_unique p t i (by simpa using hi) (by simpa using hp)
      (fun j hj hj2 => by simpa using hprev (j + 1) (by omega) (by omega))
    simpa [List.find?, ha] using ht

lemma mem_eraseIdx_iff {α : Type} {l : List α} {k : Nat} (hk : k < l.length)
    (hnd : l.Nodup) {x : α} :
    x ∈ l.eraseIdx k ↔ x ∈ l ∧ x ≠ l[k] := by
  have hdecomp : l.take k ++ l[k] :: l.drop (k + 1) = l := by
    rw [← List.drop_eq_getElem_cons hk]; exact List.take_append_drop k l
  rw [List.eraseIdx_eq_take_drop_succ]
  constructor
  · intro hx
    have hxl : x ∈ l := by
      rw [← hdecomp]
      rcases List.mem_append.mp hx with h | h
      · exact List.mem_append.mpr (Or.inl h)
      · exact List.mem_append.mpr (Or.inr (List.mem_cons_of_mem _ h))
    refine ⟨hxl, ?_⟩
    intro heq
    subst heq
    have hnd' : (l.take k ++ l[k] :: l.drop (k + 1)).Nodup := by
      rw [hdecomp]; exact hnd
    rcases List.mem_append.mp hx with h | h
    · exact (List.nodup_append.mp hnd').2.2 h (List.mem_cons_self _ _)
    · exact (List.nodup_cons.mp (List.nodup_append.mp hnd').2.1).1 h
  · rintro ⟨hxl, hne⟩
    rw [← hdecomp] at hxl
    rcases List.mem_append.mp hxl with h | h
    · exact List.mem_append.mpr (Or.inl h)
    · rcases List.mem_cons.mp h with h | h
      · exact absurd h hne
      · exact List.mem_append.mpr (Or.inr h)

lemma filter_length_eraseIdx {α : Type} (p : α → Bool) {l : List α} {k : Nat}
    (hk : k < l.length) :
    ((l.eraseIdx k).filter p).length =
      (l.filter p).length - (if p l[k] then 1 else 0) := by
  have h2 : l.filter p
      = (l.take k).filter p ++ ((l[k] :: l.drop (k + 1)).filter p) := by
    conv_lhs => rw [← List.take_append_drop k l, List.drop_eq_getElem_cons hk]
    rw [List.filter_append]
  rw [List.eraseIdx_eq_take_drop_succ, List.filter_append, h2, List.filter_cons]
  by_cases hp : p l[k] <;> simp [hp]

/-! ### The all-success behaviour of the upload fan-out -/

/-- The response event of the initial task for shard `i`. -/
def upTask (contracts : List Contract) (i : Nat) : UpEv :=
  ⟨contracts.getD i default, i, false⟩

/-- The sector recorded for shard `i` when its initial task succeeds. -/
def expectedSector (outcome : Contract → Nat → Nat × Option Nat)
    (contracts : List Contract) (i : Nat) : Sector :=
  ⟨(contracts.getD i default).hostKey, (outcome (contracts.getD i default) i).1⟩

/-- The sectors array of an all-success upload run in which the shards of
`R` are still unrecorded. -/
def sectorsOf (outcome : Contract → Nat → Nat × Option Nat)
    (contracts : List Contract) (n : Nat) (R : List Nat) : List Sector :=
  (List.range n).map (fun i => if i ∈ R then ⟨0, 0⟩ else expectedSector outcome contracts i)

lemma sectorsOf_length (outcome : Contract → Nat → Nat × Option Nat)
    (contracts : List Contract) (n : Nat) (R : List Nat) :
    (sectorsOf outcome contracts n R).length = n := by
  simp [sectorsOf]

lemma sectorsOf_getD_mem (outcome : Contract → Nat → Nat × Option Nat)
    (contracts : List Contract) (n : Nat) (R : List Nat) {i : Nat} (hi : i < n)
    (hmem : i ∈ R) :
    (sectorsOf outcome contracts n R).getD i default = ⟨0, 0⟩ := by
  rw [sectorsOf, List.getD_eq_getElem _ _ (by simpa using hi), List.getElem_map]
  simp [hmem]

lemma sectorsOf_set (outcome : Contract → Nat → Nat × Option Nat)
    (contracts : List Contract) (n : Nat) {R : List Nat} {k : Nat} (hk : k < R.length)
    (hnd : R.Nodup) :
    (sectorsOf outcome contracts n R).set R[k]
        (expectedSector outcome contracts R[k])
      = sectorsOf outcome contracts n (R.eraseIdx k) := by
  apply List.ext_getElem
  · simp [sectorsOf]
  · intro j hj hj2
    have hjn : j < n := by simpa [sectorsOf] using hj2
    rw [List.getElem_set]
    by_cases hji : R[k] = j
    · subst hji
      simp only [if_pos rfl]
      have hout : R[k] ∉ R.eraseIdx k := by
        rw [mem_eraseIdx_iff hk hnd]; simp
      simp [sectorsOf, List.getElem_map, List.getElem_range, hout, hjn]
    · simp only [if_neg hji]
      have hiff : j ∈ R.eraseIdx k ↔ j ∈ R := by
        rw [mem_eraseIdx_iff hk hnd]
        constructor
        · exact fun h => h.1
        · exact fun h => ⟨h, fun he => hji he.symm⟩
      simp only [sectorsOf, List.getElem_map, List.getElem_range]
      by_cases hjR : j ∈ R
      · simp [hjR, hiff.mpr hjR]
      · rw [if_neg hjR, if_neg (fun h => hjR (hiff.mp h))]

lemma uploadLoop_allSuccess (outcome : Contract → Nat → Nat × Option Nat)
    (slow : Contract → Nat → Bool) (contracts : List Contract) (n : Nat)
    (hsucc : ∀ c i, (outcome c i).2 = none) :
    ∀ (fuel : Nat) (R : List Nat) (sched : List Nat) (hostIndex : Nat),
      R.length < fuel → R.Nodup → (∀ i ∈ R, i < n) →
      uploadLoop outcome slow contracts fuel sched (R.map (upTask contracts)) hostIndex
        (sectorsOf outcome contracts n R) R.length []
        = .ok (sectorsOf outcome contracts n [], []) := by
  intro fuel
  induction fuel with
  | zero => intro R sched hostIndex hf; omega
  | succ fuel ih =>
    intro R sched hostIndex hf hnd hin
    match R with
    | [] => simp [uploadLoop]
    | r :: R' =>
      set R := r :: R' with hR
      have hRpos : 0 < R.length := by simp [hR]
      have hk : sched.headD 0 % (R.map (upTask contracts)).length < R.length := by
        rw [List.length_map]; exact Nat.mod_lt _ hRpos
      set k := sched.headD 0 % (R.map (upTask contracts)).length with hkdef
      have hev : (R.map (upTask contracts)).getD k default = upTask contracts (R.getD k 0) := by
        have := getD_map_lt (upTask contracts) R k hk
        simpa using this
      have hiR : R.getD k 0 ∈ R := getD_mem hk
      have hiRn : R.getD k 0 < n := hin _ hiR
      rw [uploadLoop]
      rw [if_neg (by omega : ¬ R.length = 0)]
      rw [if_neg (by simp [hR] : ¬ (R.map (upTask contracts)).isEmpty = true)]
      simp only [← hkdef, hev]
      have htev : (upTask contracts (R.getD k 0)).timeoutEv = false := rfl
      rw [if_neg (by simp [upTask])]
      have hout : (outcome (upTask contracts (R.getD k 0)).contract
          (upTask contracts (R.getD k 0)).shard).2 = none := hsucc _ _
      rw [hout]
      have hguard : ((sectorsOf outcome contracts n R).getD
          (upTask contracts (R.getD k 0)).shard default).root = 0 := by
        show ((sectorsOf outcome contracts n R).getD (R.getD k 0) default).root = 0
        rw [sectorsOf_getD_mem outcome contracts n R hiRn hiR]
      rw [if_pos hguard]
      have hset : (sectorsOf outcome contracts n R).set
            (upTask contracts (R.getD k 0)).shard
            ⟨(upTask contracts (R.getD k 0)).contract.hostKey,
              (outcome (upTask contracts (R.getD k 0)).contract
                (upTask contracts (R.getD k 0)).shard).1⟩
          = sectorsOf outcome contracts n (R.eraseIdx k) := by
        have hgd : R.getD k 0 = R[k] := List.getD_eq_getElem R 0 hk
        show (sectorsOf outcome contracts n R).set (R.getD k 0)
            (expectedSector outcome contracts (R.getD k 0))
          = sectorsOf outcome contracts n (R.eraseIdx k)
        rw [hgd]
        exact sectorsOf_set outcome contracts n hk hnd
      rw [map_eraseIdx, hset]
      have hlen : R.length - 1 = (R.eraseIdx k).length :=
        (List.length_eraseIdx_of_lt hk).symm
      rw [hlen]
      exact ih (R.eraseIdx k) sched.tail hostIndex
        (by rw [← hlen]; omega)
        (List.Nodup.eraseIdx k hnd)
        (fun i hi => hin i (List.Sublist.mem hi (List.eraseIdx_sublist R k)))

/-- When every host operation succeeds and no task times out, the upload
batch returns one sector per shard: shard `i` on candidate `i`, carrying
exactly the root the host returned, with no slow hosts. -/
lemma parallelUploadSlab_allSuccess (outcome : Contract → Nat → Nat × Option Nat)
    (slow : Contract → Nat → Bool) (shards : List (List Nat))
    (contracts : List Contract) (sched : List Nat)
    (hc : shards.length ≤ contracts.length)
    (hsucc : ∀ c i, (outcome c i).2 = none)
    (hslow : ∀ c i, slow c i = false) :
    parallelUploadSlab outcome slow shards contracts sched
      = .ok ((List.range shards.length).map (expectedSector outcome contracts), []) := by
  have hloop := uploadLoop_allSuccess outcome slow contracts shards.length hsucc
    (2 * contracts.length + 2) (List.range shards.length) sched shards.length
    (by simp; omega) (List.nodup_range _) (fun i hi => List.mem_range.mp hi)
  simp only [List.length_range] at hloop
  have hinit : (List.range shards.length).map
        (fun i => uploadSpawn slow (contracts.getD i default) i)
      = (List.range shards.length).map (upTask contracts) := by
    apply List.map_congr_left
    intro i _
    simp [uploadSpawn, upTask, hslow]
  have hsec : List.replicate shards.length (Sector.mk 0 0)
      = sectorsOf outcome contracts shards.length (List.range shards.length) := by
    apply List.ext_getElem
    · simp [sectorsOf]
    · intro i h1 h2
      have hi : i < shards.length := by simpa using h1
      simp [sectorsOf, List.getElem_map, List.getElem_range, hi]
  have hfin : sectorsOf outcome contracts shards.length []
      = (List.range shards.length).map (expectedSector outcome contracts) := by
    simp [sectorsOf]
  rw [parallelUploadSlab, if_neg (by omega), hinit, hsec, hloop, hfin]
  simp [slowHostIndices]

lemma mem_eraseIdx_of_ne {α : Type} {l : List α} {k : Nat} (hk : k < l.length) {x : α}
    (hx : x ∈ l) (hne : x ≠ l[k]) : x ∈ l.eraseIdx k := by
  have hdecomp : l.take k ++ l[k] :: l.drop (k + 1) = l := by
    rw [← List.drop_eq_getElem_cons hk]; exact List.take_append_drop k l
  rw [List.eraseIdx_eq_take_drop_succ]
  rw [← hdecomp] at hx
  rcases List.mem_append.mp hx with h | h
  · exact List.mem_append.mpr (Or.inl h)
  · rcases List.mem_cons.mp h with h | h
    · exact absurd h hne
    · exact List.mem_append.mpr (Or.inr h)

/-- When no replacement candidates remain (`hostIndex` exhausted), a
pending batch holding strictly fewer eventually-successful responses than
unsatisfied shards can only drain to the failure exit, and produces a
non-empty `HostErrorSet`. -/
lemma uploadLoop_fail (outcome : Contract → Nat → Nat × Option Nat)
    (slow : Contract → Nat → Bool) (contracts : List Contract) :
    ∀ (fuel : Nat) (pending : List UpEv) (sched : List Nat) (hostIndex : Nat)
      (sectors : List Sector) (rem : Nat) (errs : List HostError),
      pending.length < fuel →
      contracts.length ≤ hostIndex →
      (∀ p ∈ pending, p.timeoutEv = false) →
      ((∃ p ∈ pending, (outcome p.contract p.shard).2 ≠ none) ∨ errs ≠ []) →
      (pending.filter (fun p => (outcome p.contract p.shard).2 = none)).length < rem →
      ∃ errs2, errs2 ≠ [] ∧
        uploadLoop outcome slow contracts fuel sched pending hostIndex sectors rem errs
          = .error errs2 := by
  intro fuel
  induction fuel with
  | zero => intro pending sched hostIndex sectors rem errs hf; omega
  | succ fuel ih =>
    intro pending sched hostIndex sectors rem errs hf hhi htev hdisj hfilt
    have hrem : ¬ rem = 0 := by omega
    match pending with
    | [] =>
      refine ⟨errs, ?_, ?_⟩
      · rcases hdisj with ⟨p, hp, _⟩ | h
        · simp at hp
        · exact h
      · rw [uploadLoop, if_neg hrem]
        simp
    | p0 :: pending' =>
      set P := p0 :: pending' with hP
      have hPpos : 0 < P.length := by simp [hP]
      have hk : sched.headD 0 % P.length < P.length := Nat.mod_lt _ hPpos
      set k := sched.headD 0 % P.length with hkdef
      have hgd : P.getD k default = P[k] := List.getD_eq_getElem P default hk
      have hmemk : P[k] ∈ P := List.getElem_mem hk
      have hlen2 : (P.eraseIdx k).length = P.length - 1 := List.length_eraseIdx_of_lt hk
      have htev2 : ∀ p ∈ P.eraseIdx k, p.timeoutEv = false :=
        fun p hp => htev p (List.Sublist.mem hp (List.eraseIdx_sublist P k))
      rw [uploadLoop, if_neg hrem, if_neg (by simp [hP] : ¬ P.isEmpty = true)]
      simp only [← hkdef, hgd]
      rw [if_neg (by rw [htev P[k] hmemk]; exact Bool.false_ne_true)]
      rcases houtk : (outcome P[k].contract P[k].shard).2 with _ | code
      · -- the received response is a success
        have hfiltk : ((P.eraseIdx k).filter
              (fun p => (outcome p.contract p.shard).2 = none)).length
            = (P.filter (fun p => (outcome p.contract p.shard).2 = none)).length - 1 := by
          rw [filter_length_eraseIdx _ hk]
          simp [houtk]
        have hmemf : P[k] ∈ P.filter (fun p => (outcome p.contract p.shard).2 = none) := by
          rw [List.mem_filter]
          exact ⟨hmemk, by simp [houtk]⟩
        have hfpos : 0 < (P.filter
            (fun p => (outcome p.contract p.shard).2 = none)).length :=
          List.length_pos_of_mem hmemf
        have hdisj2 : (∃ p ∈ P.eraseIdx k, (outcome p.contract p.shard).2 ≠ none) ∨ errs ≠ [] := by
          rcases hdisj with ⟨q, hq, hqf⟩ | h
          · left
            refine ⟨q, ?_, hqf⟩
            apply mem_eraseIdx_of_ne hk hq
            intro he
            rw [he, houtk] at hqf
            exact hqf rfl
          · right; exact h
        by_cases hguard : ((sectors.getD P[k].shard default).root = 0)
        · rw [if_pos hguard]
          exact ih (P.eraseIdx k) sched.tail hostIndex _ (rem - 1) errs
            (by omega) hhi htev2 hdisj2 (by omega)
        · rw [if_neg hguard]
          exact ih (P.eraseIdx k) sched.tail hostIndex _ rem errs
            (by omega) hhi htev2 hdisj2 (by omega)
      · -- the received response is an error; no replacement host remains
        simp only []
        rw [if_neg (by omega : ¬ hostIndex < contracts.length),
          if_neg (by omega : ¬ hostIndex < contracts.length)]
        have hfilt2 : ((P.eraseIdx k).filter
              (fun p => (outcome p.contract p.shard).2 = none)).length
            ≤ (P.filter (fun p => (outcome p.contract p.shard).2 = none)).length := by
          rw [filter_length_eraseIdx _ hk]; omega
        exact ih (P.eraseIdx k) sched.tail hostIndex _ rem
          (errs ++ [⟨P[k].contract.hostKey, OpErr.fail code⟩])
          (by omega) hhi htev2 (Or.inr (by simp)) (by omega)

/-! ### The all-success behaviour of the download fan-out -/

/-- The shard buffers of an all-success download run in which the tasks of
`R` have not yet delivered: buffer `i` holds the bytes `b i` for satisfied
data indices, `[]` otherwise. -/
def filledOf (b : Nat → List Nat) (nsh m : Nat) (R : List Nat) : List (List Nat) :=
  (List.range nsh).map (fun i => if i < m ∧ i ∉ R then b i else [])

lemma filledOf_set (b : Nat → List Nat) (nsh m : Nat) {R : List Nat} {k : Nat}
    (hk : k < R.length) (hnd : R.Nodup) (hRm : ∀ j ∈ R, j < m) (hmn : m ≤ nsh) :
    (filledOf b nsh m R).set R[k] (b R[k]) = filledOf b nsh m (R.eraseIdx k) := by
  apply List.ext_getElem
  · simp [filledOf]
  · intro j hj hj2
    have hjn : j < nsh := by simpa [filledOf] using hj2
    rw [List.getElem_set]
    by_cases hji : R[k] = j
    · subst hji
      simp only [if_pos rfl]
      have hout : R[k] ∉ R.eraseIdx k := by
        rw [mem_eraseIdx_iff hk hnd]; simp
      have hkm : R[k] < m := hRm _ (List.getElem_mem hk)
      simp [filledOf, List.getElem_map, List.getElem_range, hout, hkm]
    · simp only [if_neg hji]
      have hiff : j ∈ R.eraseIdx k ↔ j ∈ R := by
        rw [mem_eraseIdx_iff hk hnd]
        constructor
        · exact fun h => h.1
        · exact fun h => ⟨h, fun he => hji he.symm⟩
      simp only [filledOf, List.getElem_map, List.getElem_range]
      by_cases hjR : j ∈ R
      · simp [hjR, hiff.mpr hjR]
      · have hjR2 : j ∉ R.eraseIdx k := fun h => hjR (hiff.mp h)
        simp [hjR, hjR2]

lemma downloadLoop_allSuccess (ss : SlabSlice) (contracts : List Contract)
    (lockRes : Nat → Option Nat) (dlRes : Nat → Nat → Nat → Nat → Except Nat (List Nat))
    (dslow : Nat → Bool) (b : Nat → List Nat)
    (hmn : ss.slab.minShards ≤ ss.slab.shards.length)
    (hnc : ss.slab.shards.length ≤ contracts.length)
    (hhost : ∀ i, i < ss.slab.shards.length →
      (ss.slab.shards.getD i default).host = (contracts.getD i default).hostKey)
    (hnd : (contracts.map (fun c => c.hostKey)).Nodup)
    (hlock : ∀ h, lockRes h = none)
    (hdl : ∀ h, h < ss.slab.minShards →
      dlRes h (ss.slab.shards.getD h default).root
        (sectorRegion ss.slab.minShards ss.offset ss.length).1
        (sectorRegion ss.slab.minShards ss.offset ss.length).2 = .ok (b h))
    (hb : ∀ h, h < ss.slab.minShards → b h ≠ []) :
    ∀ (fuel : Nat) (R : List Nat) (sched : List Nat) (hostIndex : Nat),
      R.length < fuel → R.Nodup → (∀ h ∈ R, h < ss.slab.minShards) →
      downloadLoop ss lockRes dlRes dslow contracts fuel sched
        (R.map (fun h => ⟨h, false⟩)) hostIndex
        (filledOf b ss.slab.shards.length ss.slab.minShards R) R.length []
        = .ok (filledOf b ss.slab.shards.length ss.slab.minShards [], []) := by
  have hkey : ∀ j, j < ss.slab.shards.length → ∀ h, h < ss.slab.shards.length → j ≠ h →
      ((ss.slab.shards.getD j default).host
        == (contracts.getD h default).hostKey) = false := by
    intro j hj h hh hne
    rw [hhost j hj]
    apply beq_eq_false_iff_ne.mpr
    intro he
    apply hne
    have hjc : j < contracts.length := by omega
    have hhc : h < contracts.length := by omega
    have hjm : j < (contracts.map (fun c => c.hostKey)).length := by simpa using hjc
    have hhm : h < (contracts.map (fun c => c.hostKey)).length := by simpa using hhc
    have hget : (contracts.map (fun c => c.hostKey))[j]
        = (contracts.map (fun c => c.hostKey))[h] := by
      rw [List.getElem_map, List.getElem_map,
        ← List.getD_eq_getElem contracts default hjc,
        ← List.getD_eq_getElem contracts default hhc]
      exact he
    exact (List.Nodup.getElem_inj_iff hnd).mp hget
  have hfind : ∀ h, h < ss.slab.minShards →
      ss.slab.shards.find?
          (fun sec => sec.host == (contracts.getD h default).hostKey)
        = some (ss.slab.shards.getD h default) := by
    intro h hh
    have hhn : h < ss.slab.shards.length := by omega
    rw [List.getD_eq_getElem _ _ hhn]
    have := find?_eq_of_unique
      (fun sec => sec.host == (contracts.getD h default).hostKey)
      ss.slab.shards h hhn
      (by
        have hg : ss.slab.shards.get ⟨h, hhn⟩ = ss.slab.shards.getD h default := by
          rw [List.getD_eq_getElem _ _ hhn, List.get_eq_getElem]
        have hhh : (ss.slab.shards.get ⟨h, hhn⟩).host
            = (contracts.getD h default).hostKey := by
          rw [hg]; exact hhost h hhn
        show ((ss.slab.shards.get ⟨h, hhn⟩).host
          == (contracts.getD h default).hostKey) = true
        rw [hhh]
        simp)
      (fun j hj hj2 => by
        have hg : ss.slab.shards.get ⟨j, hj2⟩ = ss.slab.shards.getD j default := by
          rw [List.getD_eq_getElem _ _ hj2, List.get_eq_getElem]
        show ((ss.slab.shards.get ⟨j, hj2⟩).host
          == (contracts.getD h default).hostKey) = false
        rw [hg]; exact hkey j hj2 h hhn (by omega))
    simpa using this
  intro fuel
  induction fuel with
  | zero => intro R sched hostIndex hf; omega
  | succ fuel ih =>
    intro R sched hostIndex hf hnd2 hin
    match R with
    | [] => simp [downloadLoop]
    | r :: R' =>
      set R := r :: R' with hR
      have hRpos : 0 < R.length := by simp [hR]
      have hk : sched.headD 0 % (R.map (fun h => (⟨h, false⟩ : DnEv))).length < R.length := by
        rw [List.length_map]; exact Nat.mod_lt _ hRpos
      set k := sched.headD 0 % (R.map (fun h => (⟨h, false⟩ : DnEv))).length with hkdef
      have hev : (R.map (fun h => (⟨h, false⟩ : DnEv))).getD k default
          = ⟨R.getD k 0, false⟩ := by
        have := getD_map_lt (fun h => (⟨h, false⟩ : DnEv)) R k hk
        simpa using this
      have hiR : R.getD k 0 ∈ R := getD_mem hk
      have hiRm : R.getD k 0 < ss.slab.minShards := hin _ hiR
      have hiRn : R.getD k 0 < ss.slab.shards.length := by omega
      rw [downloadLoop]
      rw [if_neg (by omega : ¬ R.length = 0)]
      rw [if_neg (by simp [hR] : ¬ (R.map (fun h => (⟨h, false⟩ : DnEv))).isEmpty = true)]
      simp only [← hkdef, hev]
      rw [if_neg (by simp : ¬ (DnEv.mk (R.getD k 0) false).timeoutEv = true)]
      have hres : downloadTaskResult ss contracts lockRes dlRes
          (DnEv.mk (R.getD k 0) false).hostIndex = .ok (b (R.getD k 0)) := by
        show downloadTaskResult ss contracts lockRes dlRes (R.getD k 0) = _
        rw [downloadTaskResult]
        simp only [hlock, hfind _ hiRm, hdl _ hiRm]
      rw [hres]
      have hfill : findFillIdx ss.slab.shards
          (filledOf b ss.slab.shards.length ss.slab.minShards R)
          (contracts.getD (DnEv.mk (R.getD k 0) false).hostIndex default).hostKey
          = some (R.getD k 0) := by
        show findFillIdx ss.slab.shards _
          (contracts.getD (R.getD k 0) default).hostKey = _
        rw [findFillIdx]
        have := find?_eq_of_unique
          (fun i => (ss.slab.shards.getD i default).host
              == (contracts.getD (R.getD k 0) default).hostKey
            && ((filledOf b ss.slab.shards.length ss.slab.minShards R).getD i []).isEmpty)
          (List.range ss.slab.shards.length) (R.getD k 0) (by simpa using hiRn)
          (by
            have hg : (List.range ss.slab.shards.length).get ⟨R.getD k 0, by simpa using hiRn⟩
                = R.getD k 0 := by
              rw [List.get_eq_getElem, List.getElem_range]
            rw [hg]
            have h1 : ((ss.slab.shards.getD (R.getD k 0) default).host
                == (contracts.getD (R.getD k 0) default).hostKey) = true := by
              rw [hhost _ hiRn]; simp
            have h2 : ((filledOf b ss.slab.shards.length ss.slab.minShards R).getD
                (R.getD k 0) []).isEmpty = true := by
              rw [filledOf, List.getD_eq_getElem _ _ (by simpa using hiRn),
                List.getElem_map, List.getElem_range,
                if_neg (fun hcon => hcon.2 hiR)]
              rfl
            show (_ && _) = true
            rw [h1, h2]
            rfl)
          (fun j hj hj2 => by
            have hg : (List.range ss.slab.shards.length).get ⟨j, hj2⟩ = j := by
              rw [List.get_eq_getElem, List.getElem_range]
            rw [hg]
            have hjn : j < ss.slab.shards.length := by simpa using hj2
            show (_ && _) = false
            rw [hkey j hjn (R.getD k 0) hiRn (by omega)]
            rfl)
        rw [this, List.get_eq_getElem, List.getElem_range]
      rw [hfill]
      simp only []
      have hgd : R.getD k 0 = R[k] := List.getD_eq_getElem R 0 hk
      have hset : (filledOf b ss.slab.shards.length ss.slab.minShards R).set
            (R.getD k 0) (b (R.getD k 0))
          = filledOf b ss.slab.shards.length ss.slab.minShards (R.eraseIdx k) := by
        rw [hgd]
        exact filledOf_set b _ _ hk hnd2 hin hmn
      rw [hset, map_eraseIdx]
      have hlen : R.length - 1 = (R.eraseIdx k).length :=
        (List.length_eraseIdx_of_lt hk).symm
      rw [hlen]
      exact ih (R.eraseIdx k) sched.tail hostIndex
        (by rw [← hlen]; omega)
        (List.Nodup.eraseIdx k hnd2)
        (fun i hi => hin i (List.Sublist.mem hi (List.eraseIdx_sublist R k)))

/-- When every host holds its recorded shard honestly, locks are acquired,
no task times out, the slab's shard hosts agree positionally with the
candidate list and the candidate host keys are distinct, a download batch
returns the region bytes of the first `MinShards` shards and no slow
hosts. -/
lemma parallelDownloadSlab_allSuccess (ss : SlabSlice) (contracts : List Contract)
    (lockRes : Nat → Option Nat) (dlRes : Nat → Nat → Nat → Nat → Except Nat (List Nat))
    (dslow : Nat → Bool) (b : Nat → List Nat) (sched : List Nat)
    (hmn : ss.slab.minShards ≤ ss.slab.shards.length)
    (hnc : ss.slab.shards.length ≤ contracts.length)
    (hhost : ∀ i, i < ss.slab.shards.length →
      (ss.slab.shards.getD i default).host = (contracts.getD i default).hostKey)
    (hnd : (contracts.map (fun c => c.hostKey)).Nodup)
    (hlock : ∀ h, lockRes h = none)
    (hdl : ∀ h, h < ss.slab.minShards →
      dlRes h (ss.slab.shards.getD h default).root
        (sectorRegion ss.slab.minShards ss.offset ss.length).1
        (sectorRegion ss.slab.minShards ss.offset ss.length).2 = .ok (b h))
    (hb : ∀ h, h < ss.slab.minShards → b h ≠ [])
    (hdslow : ∀ h, dslow h = false) :
    parallelDownloadSlab lockRes dlRes dslow ss contracts sched
      = .ok ((List.range ss.slab.shards.length).map
          (fun i => if i < ss.slab.minShards then b i else []), []) := by
  have hloop := downloadLoop_allSuccess ss contracts lockRes dlRes dslow b hmn hnc hhost
    hnd hlock hdl hb (2 * contracts.length + 2) (List.range ss.slab.minShards) sched
    ss.slab.minShards (by simp; omega) (List.nodup_range _)
    (fun h hh => List.mem_range.mp hh)
  simp only [List.length_range] at hloop
  have hinit : (List.range ss.slab.minShards).map (downloadSpawn dslow)
      = (List.range ss.slab.minShards).map (fun h => (⟨h, false⟩ : DnEv)) := by
    apply List.map_congr_left
    intro h _
    simp [downloadSpawn, hdslow]
  have hsh : List.replicate ss.slab.shards.length ([] : List Nat)
      = filledOf b ss.slab.shards.length ss.slab.minShards
          (List.range ss.slab.minShards) := by
    apply List.ext_getElem
    · simp [filledOf]
    · intro i h1 h2
      have hi : i < ss.slab.shards.length := by simpa using h1
      simp only [List.getElem_replicate, filledOf, List.getElem_map, List.getElem_range]
      rw [if_neg (fun hcon => hcon.2 (List.mem_range.mpr hcon.1))]
  have hfin : filledOf b ss.slab.shards.length ss.slab.minShards []
      = (List.range ss.slab.shards.length).map
          (fun i => if i < ss.slab.minShards then b i else []) := by
    simp [filledOf]
  rw [parallelDownloadSlab, if_neg (by omega), hinit, hsh, hloop, hfin]
  simp [slowHostIndices]

/-! ### Honest hosts for the round trip -/

/-- An honest upload outcome: every `UploadSector` succeeds, returning the
content root of shard `i`, modelled injectively (and non-zero) as `i + 1`. -/
def honestUpload : Contract → Nat → Nat × Option Nat := fun _ i => (i + 1, none)

/-- No upload task is slow. -/
def noSlowC : Contract → Nat → Bool := fun _ _ => false

/-- No download task is slow. -/
def noSlowN : Nat → Bool := fun _ => false

/-- Every contract lock is acquired. -/
def noLock : Nat → Option Nat := fun _ => none

/-- An honest `DownloadSector`: the host returns the requested byte region
of the sector stored under the root, `stored` being indexed by the content
root assignment of `honestUpload`. -/
def honestStore (stored : List (List Nat)) : Nat → Nat → Nat → Nat → Except Nat (List Nat) :=
  fun _ root o l => .ok (((stored.getD (root - 1) []).drop o).take l)

/-- The slab an all-success upload of `n` shards produces: shard `i` on
candidate `i` with the honest root `i + 1`. -/
def expectedSlab (key m n : Nat) (contracts : List Contract) : Slab :=
  ⟨key, m, (List.range n).map (fun i => ⟨(contracts.getD i default).hostKey, i + 1⟩)⟩

/-- The zero-padded plaintext buffer `uploadSlab` reads
(`buf := make([]byte, m*SectorSize)` filled by `io.ReadFull`). -/
def paddedBuf (S m : Nat) (P : List Nat) : List Nat :=
  P.take (m * S) ++ List.replicate (m * S - P.length) 0

lemma uploadSlab_honest (S key m n : Nat) (P : List Nat) (contracts : List Contract)
    (schedU : List Nat) (hL1 : 1 ≤ P.length) (hL2 : P.length ≤ m * S)
    (hc : n ≤ contracts.length) :
    uploadSlab S key m n P honestUpload noSlowC contracts schedU
      = .ok (expectedSlab key m n contracts, P.length, []) := by
  have hlen : (encryptShards key (encodeSlab S m n (paddedBuf S m P))).length = n := by
    simp [encryptShards, encodeSlab]
  have hall := parallelUploadSlab_allSuccess honestUpload noSlowC
    (encryptShards key (encodeSlab S m n (paddedBuf S m P))) contracts schedU
    (by rw [hlen]; exact hc) (fun c i => rfl) (fun c i => rfl)
  rw [hlen] at hall
  rw [uploadSlab]
  simp only []
  rw [if_neg (fun hcon => by omega)]
  show (match parallelUploadSlab honestUpload noSlowC
      (encryptShards key (encodeSlab S m n (paddedBuf S m P))) contracts schedU with
    | .error e => (.error e : Except UploadFailure (Slab × Nat × List Nat))
    | .ok (sectors, slowHosts) =>
      .ok (⟨key, m, sectors⟩, min P.length (m * S), slowHosts))
    = .ok (expectedSlab key m n contracts, P.length, [])
  rw [hall]
  simp only []
  rw [Nat.min_eq_left hL2]
  have hsec : (List.range n).map (expectedSector honestUpload contracts)
      = (List.range n).map (fun i => ⟨(contracts.getD i default).hostKey, i + 1⟩) := by
    apply List.map_congr_left
    intro i _
    rfl
  rw [hsec]
  rfl

lemma div_lt_ceil_div {m t L : Nat} (hm : 0 < m) (ht : t < L) :
    t / m < (L + m - 1) / m := by
  have h1 : t / m ≤ (L - 1) / m := Nat.div_le_div_right (by omega)
  have h2 : (L - 1 + m) / m = (L - 1) / m + 1 := Nat.add_div_right _ hm
  have h3 : L + m - 1 = L - 1 + m := by omega
  rw [h3]
  omega

lemma ceil_div_le {m L S : Nat} (hm : 0 < m) (hLS : L ≤ m * S) :
    (L + m - 1) / m ≤ S := by
  have h1 : L + m - 1 ≤ m * S + (m - 1) := by omega
  have h2 : (m * S + (m - 1)) / m = S + (m - 1) / m := by
    rw [Nat.add_comm (m * S), Nat.mul_comm m S, Nat.add_mul_div_right _ _ hm, Nat.add_comm]
  have h3 : (m - 1) / m = 0 := Nat.div_eq_of_lt (by omega)
  have h4 : (L + m - 1) / m ≤ (m * S + (m - 1)) / m := Nat.div_le_div_right h1
  omega

lemma getD_map_range {β : Type} (f : Nat → β) (n i : Nat) (d : β) (h : i < n) :
    ((List.range n).map f).getD i d = f i := by
  rw [List.getD_eq_getElem?_getD, List.getElem?_map, List.getElem?_range h]
  rfl

lemma getD_map_of_lt {α β : Type} (f : α → β) (l : List α) (i : Nat) (d : β) (d2 : α)
    (h : i < l.length) :
    (l.map f).getD i d = f (l.getD i d2) := by
  rw [List.getD_eq_getElem _ _ (by simpa using h), List.getD_eq_getElem _ _ h,
    List.getElem_map]

lemma one_le_ceil_div {m L : Nat} (hm : 0 < m) (hL : 1 ≤ L) :
    1 ≤ (L + m - 1) / m := by
  have : m ≤ L + m - 1 := by omega
  have := Nat.one_le_div_iff hm |>.mpr this
  omega

lemma getD_take_lt {α : Type} (l : List α) (j k : Nat) (d : α) (h : j < k) :
    (l.take k).getD j d = l.getD j d := by
  rw [List.getD_eq_getElem?_getD, List.getD_eq_getElem?_getD,
    List.getElem?_take_of_lt h]

lemma getD_append_left {α : Type} (P Q : List α) (t : Nat) (d : α) (h : t < P.length) :
    (P ++ Q).getD t d = P.getD t d := by
  rw [List.getD_eq_getElem?_getD, List.getD_eq_getElem?_getD,
    List.getElem?_append_left h]

lemma map_getD_range (P : List Nat) : (List.range P.length).map (fun t => P.getD t 0) = P := by
  apply List.ext_getElem
  · simp
  · intro i h1 h2
    rw [List.getElem_map, List.getElem_range, List.getD_eq_getElem _ _ h2]

lemma downloadSlab_honest (S key m n : Nat) (P : List Nat) (contracts : List Contract)
    (schedD : List Nat) (hm : 0 < m) (hmn : m ≤ n) (hL1 : 1 ≤ P.length)
    (hL2 : P.length ≤ m * S) (hc : n ≤ contracts.length)
    (hnd : (contracts.map (fun c => c.hostKey)).Nodup) :
    downloadSlab noLock
        (honestStore (encryptShards key (encodeSlab S m n (paddedBuf S m P)))) noSlowN
        ⟨expectedSlab key m n contracts, 0, P.length⟩ contracts schedD
      = .ok (P, []) := by
  set L := P.length with hLdef
  set E := encodeSlab S m n (paddedBuf S m P) with hEdef
  set encSh := encryptShards key E with hencdef
  set ss : SlabSlice := ⟨expectedSlab key m n contracts, 0, L⟩ with hssdef
  have hslab : ss.slab = expectedSlab key m n contracts := rfl
  have hmin : ss.slab.minShards = m := rfl
  have hshlen : ss.slab.shards.length = n := by simp [hssdef, expectedSlab]
  set rl := (L + m - 1) / m with hrldef
  have hregion : sectorRegion ss.slab.minShards ss.offset ss.length = (0, rl) := by
    show sectorRegion m 0 L = (0, rl)
    rw [sectorRegion]
    simp [Nat.zero_div]
  have hgetshard : ∀ i, i < n → ss.slab.shards.getD i default
      = ⟨(contracts.getD i default).hostKey, i + 1⟩ := by
    intro i hi
    show ((List.range n).map
        (fun i => Sector.mk (contracts.getD i default).hostKey (i + 1))).getD i default = _
    rw [getD_map_range _ _ _ _ hi]
  have hElen : E.length = n := by simp [hEdef, encodeSlab]
  have hEi : ∀ i, i < m → E.getD i []
      = (List.range S).map (fun u => (paddedBuf S m P).getD (u * m + i) 0) := by
    intro i hi
    have hin : i < n := by omega
    rw [hEdef, encodeSlab, getD_map_range _ _ _ _ hin, if_pos hi]
  have hencI : ∀ i, i < n → encSh.getD i [] = (E.getD i []).map (fun x => x + key) := by
    intro i hi
    rw [hencdef, encryptShards, getD_map_of_lt _ _ _ _ [] (by rw [hElen]; exact hi)]
  have hSpos : 0 < S := by
    rcases Nat.eq_zero_or_pos S with h | h
    · subst h; omega
    · exact h
  have hrl1 : 1 ≤ rl := one_le_ceil_div hm hL1
  have hrlS : rl ≤ S := ceil_div_le hm hL2
  set b : Nat → List Nat := fun h => ((encSh.getD h []).drop 0).take rl with hbdef
  have hdl : ∀ h, h < ss.slab.minShards →
      honestStore encSh h (ss.slab.shards.getD h default).root
        (sectorRegion ss.slab.minShards ss.offset ss.length).1
        (sectorRegion ss.slab.minShards ss.offset ss.length).2 = .ok (b h) := by
    intro h hh
    have hhm : h < m := by rwa [hmin] at hh
    rw [hregion, hgetshard h (by omega), honestStore]
    simp only []
    rw [hbdef]
    simp only []
    rw [Nat.add_sub_cancel]
  have hblen : ∀ h, h < m → (b h).length = rl := by
    intro h hh
    rw [hbdef]
    simp only [List.drop_zero]
    rw [List.length_take, hencI h (by omega), List.length_map, hEi h hh,
      List.length_map, List.length_range]
    omega
  have hb : ∀ h, h < ss.slab.minShards → b h ≠ [] := by
    intro h hh
    have := hblen h (by rwa [hmin] at hh)
    intro hcon
    rw [hcon] at this
    simp at this
    omega
  have hall := parallelDownloadSlab_allSuccess ss contracts noLock (honestStore encSh)
    noSlowN b schedD (by rw [hmin, hshlen]; exact hmn) (by rw [hshlen]; exact hc)
    (fun i hi => by
      rw [hshlen] at hi
      rw [hgetshard i hi])
    hnd (fun h => rfl) hdl hb (fun h => rfl)
  rw [downloadSlab, hall]
  simp only []
  have hrec : recoverSlab ss.slab.minShards ss.offset ss.length
      (decryptShards ss.slab.key ((List.range ss.slab.shards.length).map
        (fun i => if i < ss.slab.minShards then b i else []))) = P := by
    rw [hmin, hshlen]
    show recoverSlab m 0 L (decryptShards key ((List.range n).map
      (fun i => if i < m then b i else []))) = P
    rw [decryptShards, List.map_map, recoverSlab]
    have hcast : ∀ t, t < L →
        ((((List.range n).map ((fun sh => sh.map (fun x => x - key)) ∘
            (fun i => if i < m then b i else []))).getD ((0 + t) % m) []).getD
          ((0 + t) / m - 0 / m) 0) = P.getD t 0 := by
      intro t ht
      have htm : t % m < m := Nat.mod_lt _ hm
      have htmn : t % m < n := by omega
      rw [Nat.zero_add, Nat.zero_div, Nat.sub_zero]
      rw [getD_map_range _ _ _ _ htmn]
      simp only [Function.comp]
      rw [if_pos htm]
      have hdecb : (b (t % m)).map (fun x => x - key)
          = (E.getD (t % m) []).take rl := by
        rw [hbdef]
        simp only [List.drop_zero]
        rw [hencI (t % m) (by omega), ← List.map_take, List.map_map]
        have hid : ((fun x => x - key) ∘ fun x => x + key) = fun (x : Nat) => x := by
          funext x
          simp
        rw [hid]
        simp
      rw [hdecb]
      have htdiv : t / m < rl := div_lt_ceil_div hm ht
      have htdivS : t / m < S := lt_of_lt_of_le htdiv hrlS
      rw [getD_take_lt _ _ _ _ htdiv, hEi (t % m) htm, getD_map_range _ _ _ _ htdivS]
      have hidx : t / m * m + t % m = t := by
        rw [Nat.mul_comm]
        exact Nat.div_add_mod t m
      rw [hidx, paddedBuf]
      have hPtake : P.take (m * S) = P := List.take_of_length_le (by omega)
      rw [hPtake]
      exact getD_append_left P _ t 0 (by omega)
    have : (List.range L).map (fun t =>
        ((((List.range n).map ((fun sh => sh.map (fun x => x - key)) ∘
            (fun i => if i < m then b i else []))).getD ((0 + t) % m) []).getD
          ((0 + t) / m - 0 / m) 0))
        = (List.range L).map (fun t => P.getD t 0) := by
      apply List.map_congr_left
      intro t ht
      exact hcast t (List.mem_range.mp ht)
    rw [this, hLdef, map_getD_range]
  rw [hrec]

/-! ### Facts about slabsForDownload -/

/-- The total byte length covered by a slice sequence. -/
def sumLen (slabs : List SlabSlice) : Nat := (slabs.map (fun ss => ss.length)).sum

lemma getLastD_mem {α : Type} [Inhabited α] (l : List α) (h : l ≠ []) :
    l.getLastD default ∈ l := by
  rw [List.getLastD_eq_getLast?, List.getLast?_eq_getLast l h]
  exact List.getLast_mem h

lemma getLastD_congr {α : Type} (l : List α) (d e : α) (h : l ≠ []) :
    l.getLastD d = l.getLastD e := by
  rw [List.getLastD_eq_getLast?, List.getLastD_eq_getLast?, List.getLast?_eq_getLast l h]
  rfl

lemma getLastD_eq_getLast {α : Type} (l : List α) (d : α) (h : l ≠ []) :
    l.getLastD d = l.getLast h := by
  rw [List.getLastD_eq_getLast?, List.getLast?_eq_getLast l h]
  rfl

lemma u32_zero : u32 0 = 0 := by decide

lemma u32_ofNat {x : Nat} (h : x < 2 ^ 32) : u32 (x : Int) = x := by
  rw [u32, Int.emod_eq_of_lt (by omega) (by exact_mod_cast h)]
  omega

lemma add32_zero {x : Nat} (h : x < 2 ^ 32) : add32 x (u32 0) = x := by
  rw [u32_zero, add32, Nat.add_zero, Nat.mod_eq_of_lt h]

lemma sub32_zero {x : Nat} (h : x < 2 ^ 32) : sub32 x (u32 0) = x := by
  rw [u32_zero, sub32]
  show u32 ((x : Int) - (0 : Nat)) = x
  rw [Int.ofNat_zero, Int.sub_zero, u32_ofNat h]

lemma scanBreak_zero (s : SlabSlice) (rest : List SlabSlice) :
    scanBreak (s :: rest) 0 = (some 0, 0) := by
  rw [scanBreak, if_pos (by exact_mod_cast Nat.zero_le s.length)]

lemma lastLen_le_sumLen (l : List SlabSlice) (h : l ≠ []) :
    (l.getLastD default).length ≤ sumLen l := by
  have hm : l.getLastD default ∈ l := getLastD_mem l h
  have hmem : (l.getLastD default).length ∈ l.map (fun ss => ss.length) :=
    List.mem_map_of_mem _ hm
  exact List.le_sum_of_mem hmem

lemma scanBreak_total (l : List SlabSlice) :
    l ≠ [] → 0 < (l.getLastD default).length →
    scanBreak l ((sumLen l : Nat) : Int)
      = (some (l.length - 1), ((l.getLastD default).length : Int)) := by
  induction l with
  | nil => intro h; exact absurd rfl h
  | cons s rest ih =>
    intro _ hl
    match rest with
    | [] =>
      have hsum : sumLen [s] = s.length := by simp [sumLen]
      rw [scanBreak, hsum, if_pos (le_refl _)]
      rfl
    | s2 :: rest2 =>
      have hne2 : s2 :: rest2 ≠ [] := by simp
      have hlast : (s :: s2 :: rest2).getLastD default
          = (s2 :: rest2).getLastD default := by
        rw [List.getLastD_cons]
        exact getLastD_congr _ _ _ hne2
      rw [hlast] at hl
      have hsum : sumLen (s :: s2 :: rest2) = s.length + sumLen (s2 :: rest2) := by
        simp [sumLen]
      have hpos : 0 < sumLen (s2 :: rest2) :=
        lt_of_lt_of_le hl (lastLen_le_sumLen _ hne2)
      rw [scanBreak,
        if_neg (by rw [hsum]; push_cast; omega)]
      have harg : ((sumLen (s :: s2 :: rest2) : Nat) : Int) - (s.length : Int)
          = ((sumLen (s2 :: rest2) : Nat) : Int) := by
        rw [hsum]; push_cast; ring
      rw [harg, ih hne2 hl]
      simp [hlast]

/-- A trimming request for the whole byte span of a non-empty slice
sequence whose last slice has positive length returns the sequence
unchanged (all slice fields being `uint32`-representable). -/
lemma slabsForDownload_full (slabs : List SlabSlice)
    (hne : slabs ≠ [])
    (hbound : ∀ ss ∈ slabs, ss.offset < 2 ^ 32 ∧ ss.length < 2 ^ 32)
    (hlast : 0 < (slabs.getLastD default).length) :
    slabsForDownload slabs 0 ((sumLen slabs : Nat) : Int) = slabs := by
  obtain ⟨s0, rest, rfl⟩ : ∃ s0 rest, slabs = s0 :: rest := by
    match slabs, hne with
    | a :: t, _ => exact ⟨a, t, rfl⟩
  rw [slabsForDownload]
  simp only [scanBreak_zero, List.drop_zero]
  have hb0 := hbound s0 (List.mem_cons_self _ _)
  have hhead : SlabSlice.mk s0.slab (add32 s0.offset (u32 0)) (sub32 s0.length (u32 0))
      = s0 := by
    rw [add32_zero hb0.1, sub32_zero hb0.2]
  rw [hhead]
  have htot := scanBreak_total (s0 :: rest) hne hlast
  rw [htot]
  simp only []
  have hlen1 : (s0 :: rest).length - 1 + 1 = (s0 :: rest).length := by
    simp
  rw [hlen1, List.take_length]
  have hlb := hbound _ (getLastD_mem (s0 :: rest) hne)
  rw [u32_ofNat hlb.2]
  have hupd : SlabSlice.mk ((s0 :: rest).getLastD default).slab
      ((s0 :: rest).getLastD default).offset ((s0 :: rest).getLastD default).length
      = (s0 :: rest).getLastD default := rfl
  rw [hupd, getLastD_eq_getLast _ _ hne]
  exact List.dropLast_concat_getLast hne

/-! ### Facts about deleteSlabs -/

lemma nodup_filter_single {l : List Nat} (hnd : l.Nodup) {pk : Nat} (hm : pk ∈ l) :
    l.filter (fun h => h == pk) = [pk] := by
  induction l with
  | nil => simp at hm
  | cons a t ih =>
    by_cases hapk : a = pk
    · rw [List.filter_cons, if_pos (by simp [hapk])]
      have hnot : a ∉ t := (List.nodup_cons.mp hnd).1
      have hnil : t.filter (fun h => h == pk) = [] := by
        apply List.filter_eq_nil_iff.mpr
        intro x hx
        simp only [beq_iff_eq]
        intro he
        have hax : a = x := by omega
        exact hnot (hax ▸ hx)
      rw [hnil, hapk]
    · have hpt : pk ∈ t := by
        rcases List.mem_cons.mp hm with h | h
        · exact absurd h.symm hapk
        · exact h
      rw [List.filter_cons, if_neg (by simpa using hapk)]
      exact ih (List.nodup_cons.mp hnd).2 hpt

lemma getD_hostKey_inj (contracts : List Contract)
    (hnd : (contracts.map (fun c => c.hostKey)).Nodup) :
    ∀ i, i < contracts.length → ∀ j, j < contracts.length →
      (contracts.getD i default).hostKey = (contracts.getD j default).hostKey → i = j := by
  intro i hi j hj he
  have him : i < (contracts.map (fun c => c.hostKey)).length := by simpa using hi
  have hjm : j < (contracts.map (fun c => c.hostKey)).length := by simpa using hj
  have hget : (contracts.map (fun c => c.hostKey))[i]
      = (contracts.map (fun c => c.hostKey))[j] := by
    rw [List.getElem_map, List.getElem_map,
      ← List.getD_eq_getElem contracts default hi,
      ← List.getD_eq_getElem contracts default hj]
    exact he
  exact (List.Nodup.getElem_inj_iff hnd).mp hget

/-! ### The claims -/

/-- C1 (corrected; round-trip law for non-empty plaintexts).  For every
plaintext `P` with `1 ≤ |P| ≤ MinShards * SectorSize`, uploading through
`uploadSlab` with at least `TotalShards` candidate hosts of pairwise
distinct keys and honest, never-failing, never-slow host behaviour yields
the expected slab and reports `|P|` bytes consumed; then `downloadSlab` on
the slice covering `[0, |P|)` of that slab, against the same candidates and
honest hosts, writes back exactly `P`.  (The original claim's `L = 0` case
is refuted by `renterd_c1_counterexample`: `io.ReadFull` returns `io.EOF`
there and `uploadSlab` fails.) -/
theorem renterd_c1_roundtrip (S key m n : Nat) (P : List Nat) (contracts : List Contract)
    (schedU schedD : List Nat) (hm : 0 < m) (hmn : m ≤ n) (hL1 : 1 ≤ P.length)
    (hL2 : P.length ≤ m * S) (hc : n ≤ contracts.length)
    (hnd : (contracts.map (fun c => c.hostKey)).Nodup) :
    uploadSlab S key m n P honestUpload noSlowC contracts schedU
      = .ok (expectedSlab key m n contracts, P.length, [])
    ∧ downloadSlab noLock
        (honestStore (encryptShards key (encodeSlab S m n (paddedBuf S m P)))) noSlowN
        ⟨expectedSlab key m n contracts, 0, P.length⟩ contracts schedD
      = .ok (P, []) :=
  ⟨uploadSlab_honest S key m n P contracts schedU hL1 hL2 hc,
   downloadSlab_honest S key m n P contracts schedD hm hmn hL1 hL2 hc hnd⟩

/-- C1 witness: the round trip at `S = 2`, `m = 1`, `n = 2`, `P = [7]`. -/
theorem renterd_c1_witness :
    (0 < 1 ∧ (1 : Nat) ≤ 2 ∧
      (([⟨0, 10, 0⟩, ⟨1, 11, 0⟩] : List Contract).map (fun c => c.hostKey)).Nodup)
    ∧ uploadSlab 2 3 1 2 [7] honestUpload noSlowC [⟨0, 10, 0⟩, ⟨1, 11, 0⟩] []
      = .ok (expectedSlab 3 1 2 [⟨0, 10, 0⟩, ⟨1, 11, 0⟩], 1, [])
    ∧ downloadSlab noLock
        (honestStore (encryptShards 3 (encodeSlab 2 1 2 (paddedBuf 2 1 [7])))) noSlowN
        ⟨expectedSlab 3 1 2 [⟨0, 10, 0⟩, ⟨1, 11, 0⟩], 0, 1⟩ [⟨0, 10, 0⟩, ⟨1, 11, 0⟩] []
      = .ok ([7], []) :=
  ⟨⟨by decide, by decide, by decide⟩,
   (renterd_c1_roundtrip 2 3 1 2 [7] [⟨0, 10, 0⟩, ⟨1, 11, 0⟩] [] [] (by decide) (by decide)
      (by decide) (by decide) (by decide) (by decide)).1,
   (renterd_c1_roundtrip 2 3 1 2 [7] [⟨0, 10, 0⟩, ⟨1, 11, 0⟩] [] [] (by decide) (by decide)
      (by decide) (by decide) (by decide) (by decide)).2⟩

/-- C1 counterexample: an empty plaintext (`L = 0`) makes `io.ReadFull`
return `io.EOF`, which `uploadSlab` treats as fatal — it returns an error
rather than a slab with `0` bytes consumed, refuting the claim's
`0 ≤ L` range. -/
theorem renterd_c1_counterexample :
    uploadSlab 2 3 1 2 [] honestUpload noSlowC [⟨0, 10, 0⟩, ⟨1, 11, 0⟩] []
      = .error .readError := by rfl

/-- C2 (corrected; upload shape under distinct candidate keys).  With at
least `TotalShards` candidates, every host operation succeeding and no
timeouts, `parallelUploadSlab` returns exactly `TotalShards` sectors, every
sector's host drawn from the candidate list; provided the candidate host
keys are pairwise distinct, no host key appears in two sectors.  (Without
the distinctness proviso the claim fails: `renterd_c2_counterexample`.) -/
theorem renterd_c2_upload_shape (outcome : Contract → Nat → Nat × Option Nat)
    (shards : List (List Nat)) (contracts : List Contract) (sched : List Nat)
    (hc : shards.length ≤ contracts.length)
    (hsucc : ∀ c i, (outcome c i).2 = none)
    (hnd : (contracts.map (fun c => c.hostKey)).Nodup) :
    ∃ sectors, parallelUploadSlab outcome noSlowC shards contracts sched = .ok (sectors, [])
      ∧ sectors.length = shards.length
      ∧ (∀ sec ∈ sectors, sec.host ∈ contracts.map (fun c => c.hostKey))
      ∧ (sectors.map (fun sec => sec.host)).Nodup := by
  refine ⟨(List.range shards.length).map (expectedSector outcome contracts),
    parallelUploadSlab_allSuccess outcome noSlowC shards contracts sched hc hsucc
      (fun c i => rfl), by simp, ?_, ?_⟩
  · intro sec hsec
    rcases List.mem_map.mp hsec with ⟨i, hiR, rfl⟩
    have hi : i < shards.length := List.mem_range.mp hiR
    show (contracts.getD i default).hostKey ∈ _
    exact List.mem_map.mpr ⟨contracts.getD i default, getD_mem (by omega), rfl⟩
  · rw [List.map_map]
    have hfun : ((fun sec => sec.host) ∘ expectedSector outcome contracts)
        = fun i => (contracts.getD i default).hostKey := rfl
    rw [hfun]
    refine (List.nodup_map_iff_inj_on (List.nodup_range _)).mpr ?_
    intro i hi j hj he
    exact getD_hostKey_inj contracts hnd i (by have := List.mem_range.mp hi; omega)
      j (by have := List.mem_range.mp hj; omega) he

/-- C2 witness: two shards on two distinct hosts. -/
theorem renterd_c2_witness :
    (([⟨0, 10, 0⟩, ⟨1, 11, 0⟩] : List Contract).map (fun c => c.hostKey)).Nodup
    ∧ ∃ sectors,
        parallelUploadSlab honestUpload noSlowC [[1], [2]] [⟨0, 10, 0⟩, ⟨1, 11, 0⟩] []
          = .ok (sectors, [])
        ∧ sectors.length = 2
        ∧ (∀ sec ∈ sectors,
            sec.host ∈ ([⟨0, 10, 0⟩, ⟨1, 11, 0⟩] : List Contract).map (fun c => c.hostKey))
        ∧ (sectors.map (fun sec => sec.host)).Nodup :=
  ⟨by decide, renterd_c2_upload_shape honestUpload [[1], [2]] [⟨0, 10, 0⟩, ⟨1, 11, 0⟩] []
    (by decide) (fun c i => rfl) (by decide)⟩

/-- C2 counterexample: two candidate contracts with the same host key — the
upload succeeds but records the same host in two sectors, refuting the
unconditional no-duplicate-hosts part of the claim. -/
theorem renterd_c2_counterexample :
    parallelUploadSlab honestUpload noSlowC [[1], [2]] [⟨0, 5, 0⟩, ⟨1, 5, 0⟩] []
      = .ok ([⟨5, 1⟩, ⟨5, 2⟩], [])
    ∧ ¬ (([⟨5, 1⟩, ⟨5, 2⟩] : List Sector).map (fun sec => sec.host)).Nodup :=
  ⟨by rfl, by decide⟩

/-- C3 (corrected; uploads do not tolerate the parity budget).  Whenever
some upload task fails permanently with no replacement candidate available
(and no task times out), `parallelUploadSlab` terminates with a non-empty
`HostErrorSet` — in particular when exactly `TotalShards - MinShards` tasks
fail, contrary to the claim: the upload loop requires all `TotalShards`
shards to be placed; the parity-budget tolerance belongs to the download
path.  (`renterd_c3_counterexample` exhibits a failing batch with exactly
`TotalShards - MinShards` permanently failing tasks.) -/
theorem renterd_c3_upload_failure (outcome : Contract → Nat → Nat × Option Nat)
    (shards : List (List Nat)) (contracts : List Contract) (sched : List Nat) (i0 : Nat)
    (hlen : contracts.length = shards.length) (hi0 : i0 < shards.length)
    (hfail : (outcome (contracts.getD i0 default) i0).2 ≠ none) :
    ∃ errs, errs ≠ [] ∧
      parallelUploadSlab outcome noSlowC shards contracts sched
        = .error (.hostErrors errs) := by
  have htev : ∀ p ∈ (List.range shards.length).map
      (fun i => uploadSpawn noSlowC (contracts.getD i default) i), p.timeoutEv = false := by
    intro p hp
    rcases List.mem_map.mp hp with ⟨i, _, rfl⟩
    rfl
  have hmem : uploadSpawn noSlowC (contracts.getD i0 default) i0
      ∈ (List.range shards.length).map
        (fun i => uploadSpawn noSlowC (contracts.getD i default) i) :=
    List.mem_map.mpr ⟨i0, List.mem_range.mpr hi0, rfl⟩
  have hdisj : ∃ p ∈ (List.range shards.length).map
      (fun i => uploadSpawn noSlowC (contracts.getD i default) i),
      (outcome p.contract p.shard).2 ≠ none :=
    ⟨uploadSpawn noSlowC (contracts.getD i0 default) i0, hmem, hfail⟩
  have hplen : ((List.range shards.length).map
      (fun i => uploadSpawn noSlowC (contracts.getD i default) i)).length
      = shards.length := by simp
  have hfilt0 : (((List.range shards.length).map
      (fun i => uploadSpawn noSlowC (contracts.getD i default) i)).filter
        (fun p => (outcome p.contract p.shard).2 = none)).length
      < ((List.range shards.length).map
        (fun i => uploadSpawn noSlowC (contracts.getD i default) i)).length :=
    List.length_filter_lt_length_iff_exists.mpr
      ⟨uploadSpawn noSlowC (contracts.getD i0 default) i0, hmem, by simpa using hfail⟩
  have hfilt : (((List.range shards.length).map
      (fun i => uploadSpawn noSlowC (contracts.getD i default) i)).filter
        (fun p => (outcome p.contract p.shard).2 = none)).length < shards.length := by
    rw [hplen] at hfilt0
    exact hfilt0
  obtain ⟨errs2, hne2, heq⟩ := uploadLoop_fail outcome noSlowC contracts
    (2 * contracts.length + 2)
    ((List.range shards.length).map (fun i => uploadSpawn noSlowC (contracts.getD i default) i))
    sched shards.length (List.replicate shards.length ⟨0, 0⟩) shards.length []
    (by rw [hplen]; omega) (by omega) htev (Or.inl hdisj) hfilt
  refine ⟨errs2, hne2, ?_⟩
  rw [parallelUploadSlab, if_neg (by omega), heq]

/-- C3 witness: three shards, three candidates (`TotalShards = 3`,
`MinShards = 1`), the tasks of shards 0 and 1 — exactly
`TotalShards - MinShards` of them — fail permanently, shard 2 succeeds:
the batch fails with a `HostErrorSet`. -/
theorem renterd_c3_witness :
    ((fun c i => if c.fcid ≤ 1 then ((0 : Nat), some 7) else (i + 1, none))
        (([⟨0, 100, 0⟩, ⟨1, 101, 0⟩, ⟨2, 102, 0⟩] : List Contract).getD 0 default) 0).2 ≠ none
    ∧ ∃ errs, errs ≠ [] ∧
        parallelUploadSlab (fun c i => if c.fcid ≤ 1 then ((0 : Nat), some 7) else (i + 1, none))
          noSlowC [[1], [2], [3]] [⟨0, 100, 0⟩, ⟨1, 101, 0⟩, ⟨2, 102, 0⟩] []
          = .error (.hostErrors errs) :=
  ⟨by decide,
   renterd_c3_upload_failure (fun c i => if c.fcid ≤ 1 then ((0 : Nat), some 7) else (i + 1, none))
     [[1], [2], [3]] [⟨0, 100, 0⟩, ⟨1, 101, 0⟩, ⟨2, 102, 0⟩] [] 0 (by decide) (by decide)
     (by decide)⟩

/-- C3 counterexample: `TotalShards = 2`, `MinShards = 1`, two candidates;
exactly `TotalShards - MinShards = 1` task fails permanently with no
replacement available and the other succeeds, yet `parallelUploadSlab`
returns a `HostErrorSet` instead of the success the claim asserts. -/
theorem renterd_c3_counterexample :
    parallelUploadSlab (fun c i => if c.fcid = 0 then ((0 : Nat), some 7) else (i + 1, none))
      noSlowC [[1], [2]] [⟨0, 100, 0⟩, ⟨1, 101, 0⟩] []
      = .error (.hostErrors [⟨100, .fail 7⟩]) := by rfl

/-- C6 (confirmed).  With fewer candidate contracts than shards,
`parallelUploadSlab` fails its precondition check, and with fewer
candidates than `MinShards`, `parallelDownloadSlab` does likewise — in both
cases immediately, for every oracle and schedule (so before any host is
contacted and independent of any host behaviour), with no partial work in
the result. -/
theorem renterd_c6_preconditions (outcome : Contract → Nat → Nat × Option Nat)
    (slow : Contract → Nat → Bool) (shards : List (List Nat)) (contracts : List Contract)
    (sched : List Nat) (lockRes : Nat → Option Nat)
    (dlRes : Nat → Nat → Nat → Nat → Except Nat (List Nat)) (dslow : Nat → Bool)
    (ss : SlabSlice) (contracts2 : List Contract) (sched2 : List Nat) :
    (contracts.length < shards.length →
      parallelUploadSlab outcome slow shards contracts sched = .error .notEnoughHosts)
    ∧ (contracts2.length < ss.slab.minShards →
      parallelDownloadSlab lockRes dlRes dslow ss contracts2 sched2
        = .error .notEnoughHosts) := by
  constructor
  · intro h
    rw [parallelUploadSlab, if_pos h]
  · intro h
    rw [parallelDownloadSlab, if_pos h]

/-- C6 witness: one shard and no candidates; a download slice needing one
shard and no candidates. -/
theorem renterd_c6_witness :
    (([] : List Contract).length < ([[1]] : List (List Nat)).length
      ∧ parallelUploadSlab honestUpload noSlowC [[1]] [] [] = .error .notEnoughHosts)
    ∧ (([] : List Contract).length < (SlabSlice.mk ⟨0, 1, [⟨1, 1⟩]⟩ 0 1).slab.minShards
      ∧ parallelDownloadSlab noLock (honestStore []) noSlowN ⟨⟨0, 1, [⟨1, 1⟩]⟩, 0, 1⟩ [] []
        = .error .notEnoughHosts) :=
  ⟨⟨by decide, (renterd_c6_preconditions honestUpload noSlowC [[1]] [] [] noLock
      (honestStore []) noSlowN ⟨⟨0, 1, [⟨1, 1⟩]⟩, 0, 1⟩ [] []).1 (by decide)⟩,
   ⟨by decide, (renterd_c6_preconditions honestUpload noSlowC [[1]] [] [] noLock
      (honestStore []) noSlowN ⟨⟨0, 1, [⟨1, 1⟩]⟩, 0, 1⟩ [] []).2 (by decide)⟩⟩

/-- C10 (corrected; the zero-root sentinel admits zero-root placements).
In a batch where every host operation succeeds and none times out, each
shard's slot is recorded from its task's response exactly as returned —
the guard `sectors[i].Root == (types.Hash256{})` inspects the slot, not the
incoming root, so a success whose root is the all-zero hash is recorded,
counts toward completing the batch, and appears in the returned slab
(`renterd_c10_counterexample`), contrary to the claim that zero-root
successes are never recorded and such batches fail. -/
theorem renterd_c10_zero_root (outcome : Contract → Nat → Nat × Option Nat)
    (shards : List (List Nat)) (contracts : List Contract) (sched : List Nat)
    (hc : shards.length ≤ contracts.length)
    (hsucc : ∀ c i, (outcome c i).2 = none) :
    parallelUploadSlab outcome noSlowC shards contracts sched
      = .ok ((List.range shards.length).map (expectedSector outcome contracts), []) :=
  parallelUploadSlab_allSuccess outcome noSlowC shards contracts sched hc hsucc
    (fun c i => rfl)

/-- C10 witness: a single upload whose host returns the all-zero root; the
batch succeeds and records the zero-root placement. -/
theorem renterd_c10_witness :
    (∀ (c : Contract) (i : Nat), (((fun _ _ => ((0 : Nat), none)) : Contract → Nat → Nat × Option Nat) c i).2 = none)
    ∧ parallelUploadSlab (fun _ _ => ((0 : Nat), none)) noSlowC [[9]] [⟨0, 100, 0⟩] []
      = .ok ((List.range 1).map
          (expectedSector (fun _ _ => ((0 : Nat), none)) [⟨0, 100, 0⟩]), []) :=
  ⟨fun c i => rfl,
   renterd_c10_zero_root (fun _ _ => ((0 : Nat), none)) [[9]] [⟨0, 100, 0⟩] []
     (by decide) (fun c i => rfl)⟩

/-- C10 counterexample: the batch in which the only success returns the
all-zero root terminates successfully with a recorded zero-root sector,
refuting the claim that it would terminate as a failure. -/
theorem renterd_c10_counterexample :
    parallelUploadSlab (fun _ _ => ((0 : Nat), none)) noSlowC [[9]] [⟨0, 100, 0⟩] []
      = .ok ([⟨100, 0⟩], []) := by rfl

/-! ### Concrete migration scenarios -/

/-- A host session holding the sector with root `1` (honest for that root,
failing for any other). -/
def dlStub : Nat → Nat → Nat → Nat → Except Nat (List Nat) :=
  fun _ root _ _ => if root = 1 then .ok [5, 5] else .error 1

/-- The download task on candidate index `0` times out (is slow). -/
def slowFirst : Nat → Bool := fun h => h == 0

/-- A slab whose shard 0 lives on host `20` (good) and shard 1 on host `99`
(gone): shard 1 needs migration, host `20` is used. -/
def c4Slab : Slab := ⟨3, 1, [⟨20, 1⟩, ⟨99, 2⟩]⟩

/-- Candidates for the `c4Slab` migration: the fresh host `10` first, the
used host `20` second. -/
def c4Contracts : List Contract := [⟨0, 10, 0⟩, ⟨1, 20, 0⟩]

/-- A slab holding both shards on host `20`: shard 1 needs migration as a
host reuse. -/
def c5Slab : Slab := ⟨3, 1, [⟨20, 1⟩, ⟨20, 2⟩]⟩

/-- A single candidate — the already-used host `20`. -/
def c5Contracts : List Contract := [⟨1, 20, 0⟩]

/-- The number of candidate contracts whose host is not already used by a
surviving good shard — the replacement hosts actually available to a
migration. -/
def availableReplacements (s : Slab) (contracts : List Contract) : Nat :=
  (contracts.filter (fun c => !((migrationIndices s contracts).2.contains c.hostKey))).length

/-- C4 (code bug; the replacement list reaches the re-upload corrupted).
In the `c4Slab` migration the download succeeds with the fresh host `10`
marked slow; the code's `filtered := contracts[:0]` aliases the candidate
array and the subsequent `sort.SliceStable(contracts, ...)` sorts that
whole mutated array rather than `filtered`, so the candidate list handed to
the re-upload is `[host 20]` — precisely the used host the comments say are
filtered out, with the fresh host pushed out of the window.  The spec's
intended list is `[host 10]`. -/
theorem renterd_c4_replacement_bug :
    (migrationIndices c4Slab c4Contracts).2 = [20]
    ∧ (migrateSlab 2 noLock dlStub slowFirst honestUpload noSlowC id
        (reconstructModel 2 1 2) [] [] c4Slab c4Contracts).uploadCandidates
      = some [⟨1, 20, 0⟩] :=
  ⟨by rfl, by rfl⟩

/-- C5 (corrected; the second sanity check counts all candidates, not the
available replacements).  With at least one shard index to migrate,
`migrateSlab` returns a fatal error before any download exactly when the
surviving good shard count is below `MinShards` or the migrating shard
count exceeds the **total** candidate count — the code compares against
`len(contracts)`, not against the used-host-filtered replacement list, so a
shortfall of actual replacements surfaces only later, as the re-upload's
precondition failure after the download has run
(`renterd_c5_counterexample`). -/
theorem renterd_c5_sanity_checks (S : Nat) (lockRes : Nat → Option Nat)
    (dlRes : Nat → Nat → Nat → Nat → Except Nat (List Nat)) (dslow : Nat → Bool)
    (upOutcome : Contract → Nat → Nat × Option Nat) (uslow : Contract → Nat → Bool)
    (shuffle : List Contract → List Contract)
    (reconstructFn : List (List Nat) → Option (List (List Nat)))
    (schedD schedU : List Nat) (s : Slab) (contracts : List Contract)
    (hne : (migrationIndices s contracts).1 ≠ []) :
    ((migrateSlab S lockRes dlRes dslow upOutcome uslow shuffle reconstructFn
        schedD schedU s contracts).err ≠ none
      ∧ (migrateSlab S lockRes dlRes dslow upOutcome uslow shuffle reconstructFn
        schedD schedU s contracts).downloaded = false)
    ↔ (s.shards.length - (migrationIndices s contracts).1.length < s.minShards
      ∨ contracts.length < (migrationIndices s contracts).1.length) := by
  rw [migrateSlab]
  simp only []
  rw [if_neg (by simpa [List.isEmpty_iff] using hne)]
  by_cases h1 : s.shards.length - (migrationIndices s contracts).1.length < s.minShards
  · rw [if_pos h1]
    simp [h1]
  · rw [if_neg h1]
    by_cases h2 : contracts.length < (migrationIndices s contracts).1.length
    · rw [if_pos h2]
      simp [h1, h2]
    · rw [if_neg h2]
      split
      · simp [h1, h2]
      · split
        · simp [h1, h2]
        · split
          · simp [h1, h2]
          · simp [h1, h2]

/-- C5 witness: both shards bad and no candidates — the first sanity check
fires, fatal with no download. -/
theorem renterd_c5_witness :
    (migrationIndices (Slab.mk 1 2 [⟨7, 1⟩, ⟨8, 2⟩]) []).1 ≠ []
    ∧ (((migrateSlab 2 noLock dlStub noSlowN honestUpload noSlowC id
          (reconstructModel 2 2 2) [] [] (Slab.mk 1 2 [⟨7, 1⟩, ⟨8, 2⟩]) []).err ≠ none
        ∧ (migrateSlab 2 noLock dlStub noSlowN honestUpload noSlowC id
          (reconstructModel 2 2 2) [] [] (Slab.mk 1 2 [⟨7, 1⟩, ⟨8, 2⟩]) []).downloaded = false)
      ↔ ((Slab.mk 1 2 [⟨7, 1⟩, ⟨8, 2⟩]).shards.length
          - (migrationIndices (Slab.mk 1 2 [⟨7, 1⟩, ⟨8, 2⟩]) []).1.length
          < (Slab.mk 1 2 [⟨7, 1⟩, ⟨8, 2⟩]).minShards
        ∨ ([] : List Contract).length
          < (migrationIndices (Slab.mk 1 2 [⟨7, 1⟩, ⟨8, 2⟩]) []).1.length)) :=
  ⟨by decide, renterd_c5_sanity_checks 2 noLock dlStub noSlowN honestUpload noSlowC id
    (reconstructModel 2 2 2) [] [] (Slab.mk 1 2 [⟨7, 1⟩, ⟨8, 2⟩]) [] (by decide)⟩

/-- C5 counterexample: one shard to migrate, zero available replacement
hosts (the sole candidate is already used), yet `migrateSlab` proceeds to
the download — the fatal error the claim requires before any download
arrives only afterwards, from the re-upload's precondition. -/
theorem renterd_c5_counterexample :
    (migrationIndices c5Slab c5Contracts).1.length = 1
    ∧ availableReplacements c5Slab c5Contracts = 0
    ∧ (migrateSlab 2 noLock dlStub noSlowN honestUpload noSlowC id
        (reconstructModel 2 1 2) [] [] c5Slab c5Contracts).downloaded = true :=
  ⟨by rfl, by rfl, by rfl⟩

/-- C7 (corrected; full-span request, positive trailing length).  For every
non-empty slice sequence whose `Length` fields sum to `total`, all fields
`uint32`-representable and the last slice of positive `Length`,
`slabsForDownload(slabs, 0, total)` returns the sequence unchanged in
content (the call works on a defensive copy of the caller's slice).
A trailing zero-length slice is dropped instead
(`renterd_c7_counterexample`). -/
theorem renterd_c7_full_span (slabs : List SlabSlice)
    (hne : slabs ≠ [])
    (hbound : ∀ ss ∈ slabs, ss.offset < 2 ^ 32 ∧ ss.length < 2 ^ 32)
    (hlast : 0 < (slabs.getLastD default).length) :
    slabsForDownload slabs 0 ((sumLen slabs : Nat) : Int) = slabs :=
  slabsForDownload_full slabs hne hbound hlast

/-- C7 witness: two slices of lengths 5 and 7, request `(0, 12)`. -/
theorem renterd_c7_witness :
    (([⟨⟨1, 1, [⟨5, 9⟩]⟩, 0, 5⟩, ⟨⟨2, 1, [⟨6, 8⟩]⟩, 3, 7⟩] : List SlabSlice) ≠ []
      ∧ 0 < (([⟨⟨1, 1, [⟨5, 9⟩]⟩, 0, 5⟩, ⟨⟨2, 1, [⟨6, 8⟩]⟩, 3, 7⟩] :
          List SlabSlice).getLastD default).length)
    ∧ slabsForDownload [⟨⟨1, 1, [⟨5, 9⟩]⟩, 0, 5⟩, ⟨⟨2, 1, [⟨6, 8⟩]⟩, 3, 7⟩] 0
        ((sumLen [⟨⟨1, 1, [⟨5, 9⟩]⟩, 0, 5⟩, ⟨⟨2, 1, [⟨6, 8⟩]⟩, 3, 7⟩] : Nat) : Int)
      = [⟨⟨1, 1, [⟨5, 9⟩]⟩, 0, 5⟩, ⟨⟨2, 1, [⟨6, 8⟩]⟩, 3, 7⟩] :=
  ⟨⟨by decide, by decide⟩,
   renterd_c7_full_span [⟨⟨1, 1, [⟨5, 9⟩]⟩, 0, 5⟩, ⟨⟨2, 1, [⟨6, 8⟩]⟩, 3, 7⟩]
     (by decide) (by decide) (by decide)⟩

/-- C7 counterexample: a trailing zero-length slice is dropped by the
second scan, so the result is not the original sequence. -/
theorem renterd_c7_counterexample :
    slabsForDownload [⟨⟨1, 1, []⟩, 0, 5⟩, ⟨⟨2, 1, []⟩, 0, 0⟩] 0
        ((sumLen [⟨⟨1, 1, []⟩, 0, 5⟩, ⟨⟨2, 1, []⟩, 0, 0⟩] : Nat) : Int)
      = [⟨⟨1, 1, []⟩, 0, 5⟩]
    ∧ ([⟨⟨1, 1, []⟩, 0, 5⟩] : List SlabSlice)
      ≠ [⟨⟨1, 1, []⟩, 0, 5⟩, ⟨⟨2, 1, []⟩, 0, 0⟩] :=
  ⟨by rfl, by decide⟩

/-- C8 (corrected; host-partitioned deletion given one session per
root-owning host).  `deleteSlabs` issues one `DeleteSectors` call per
session, carrying exactly the roots that session's host owns; provided the
session list has pairwise-distinct host keys and contains a session for
every root-owning host, that is exactly one call per such host.  The set of
calls issued does not depend on any host's failure (failing hosts do not
block the others), the call returns `nil` exactly when every per-host call
succeeds, and otherwise the `HostErrorSet` holds one entry per failing
host.  (With no session for a root-owning host, or duplicate sessions, the
per-distinct-host claim fails: `renterd_c8_counterexample`.) -/
theorem renterd_c8_delete_partition (slabs : List Slab) (hosts : List Nat)
    (delRes delRes2 : Nat → List Nat → Option Nat)
    (hnd : hosts.Nodup) (hcover : ∀ pk, hostRoots slabs pk ≠ [] → pk ∈ hosts) :
    (∀ pk, hostRoots slabs pk ≠ [] →
      (deleteSlabs slabs hosts delRes).1.filter (fun c => c.1 == pk)
        = [(pk, hostRoots slabs pk)])
    ∧ (deleteSlabs slabs hosts delRes).1 = (deleteSlabs slabs hosts delRes2).1
    ∧ ((deleteSlabs slabs hosts delRes).2 = none
        ↔ ∀ pk ∈ hosts, delRes pk (hostRoots slabs pk) = none)
    ∧ (∀ errs, (deleteSlabs slabs hosts delRes).2 = some errs →
        errs = hosts.filterMap (fun pk => (delRes pk (hostRoots slabs pk)).map
          (fun code => HostError.mk pk (OpErr.fail code)))) := by
  have hkey : ((hosts.filterMap (fun pk => (delRes pk (hostRoots slabs pk)).map
      (fun code => HostError.mk pk (OpErr.fail code)))).isEmpty = true)
      ↔ ∀ pk ∈ hosts, delRes pk (hostRoots slabs pk) = none := by
    rw [List.isEmpty_iff, List.filterMap_eq_nil_iff]
    constructor
    · intro h pk hpk
      exact Option.map_eq_none'.mp (h pk hpk)
    · intro h pk hpk
      rw [h pk hpk]
      rfl
  refine ⟨?_, rfl, ?_, ?_⟩
  · intro pk hpk
    show ((hosts.map (fun pk => (pk, hostRoots slabs pk))).filter
      (fun c => c.1 == pk)) = _
    rw [List.filter_map]
    have hpred : (hosts.filter ((fun c => c.1 == pk) ∘
        (fun pk2 => (pk2, hostRoots slabs pk2)))) = hosts.filter (fun h => h == pk) := rfl
    rw [hpred, nodup_filter_single hnd (hcover pk hpk)]
    rfl
  · show (if (hosts.filterMap _).isEmpty then none else some _) = none ↔ _
    by_cases he : (hosts.filterMap (fun pk => (delRes pk (hostRoots slabs pk)).map
        (fun code => HostError.mk pk (OpErr.fail code)))).isEmpty = true
    · rw [if_pos he]
      constructor
      · intro _
        exact hkey.mp he
      · intro _
        rfl
    · rw [if_neg he]
      constructor
      · intro hcon
        exact absurd hcon (by simp)
      · intro hall
        exact absurd (hkey.mpr hall) he
  · intro errs heq
    show errs = _
    by_cases he : (hosts.filterMap (fun pk => (delRes pk (hostRoots slabs pk)).map
        (fun code => HostError.mk pk (OpErr.fail code)))).isEmpty = true
    · rw [deleteSlabs] at heq
      simp only [if_pos he] at heq
      exact absurd heq (by simp)
    · rw [deleteSlabs] at heq
      simp only [if_neg he] at heq
      exact (Option.some.inj heq).symm

/-- C8 witness: two slabs across hosts 7 and 8, one session each plus an
idle host 9; host 8's deletion fails without blocking the others. -/
theorem renterd_c8_witness :
    ([7, 8, 9] : List Nat).Nodup
    ∧ (∀ pk, hostRoots [⟨1, 1, [⟨7, 101⟩, ⟨8, 102⟩]⟩, ⟨2, 1, [⟨7, 103⟩]⟩] pk ≠ [] →
        pk ∈ ([7, 8, 9] : List Nat))
    ∧ (∀ pk, hostRoots [⟨1, 1, [⟨7, 101⟩, ⟨8, 102⟩]⟩, ⟨2, 1, [⟨7, 103⟩]⟩] pk ≠ [] →
        (deleteSlabs [⟨1, 1, [⟨7, 101⟩, ⟨8, 102⟩]⟩, ⟨2, 1, [⟨7, 103⟩]⟩] [7, 8, 9]
            (fun pk2 _ => if pk2 = 8 then some 4 else none)).1.filter
          (fun c => c.1 == pk)
        = [(pk, hostRoots [⟨1, 1, [⟨7, 101⟩, ⟨8, 102⟩]⟩, ⟨2, 1, [⟨7, 103⟩]⟩] pk)]) := by
  have hcover : ∀ pk, hostRoots [⟨1, 1, [⟨7, 101⟩, ⟨8, 102⟩]⟩, ⟨2, 1, [⟨7, 103⟩]⟩] pk ≠ [] →
      pk ∈ ([7, 8, 9] : List Nat) := by
    intro pk hpk
    by_cases h7 : pk = 7
    · simp [h7]
    · by_cases h8 : pk = 8
      · simp [h8]
      · exfalso
        apply hpk
        have h7n : (7 : Nat) ≠ pk := fun hh => h7 hh.symm
        have h8n : (8 : Nat) ≠ pk := fun hh => h8 hh.symm
        simp [hostRoots, h7n, h8n]
  exact ⟨by decide, hcover,
    (renterd_c8_delete_partition [⟨1, 1, [⟨7, 101⟩, ⟨8, 102⟩]⟩, ⟨2, 1, [⟨7, 103⟩]⟩]
      [7, 8, 9] (fun pk2 _ => if pk2 = 8 then some 4 else none)
      (fun pk2 _ => if pk2 = 8 then some 4 else none) (by decide) hcover).1⟩

/-- C8 counterexample: host 1 owns a root but no session for it is passed,
so no `DeleteSectors` call at all reaches it (and `deleteSlabs` reports
success) — "exactly one call per distinct host owning a root" fails for an
arbitrary session set. -/
theorem renterd_c8_counterexample :
    (deleteSlabs [⟨0, 1, [⟨1, 5⟩]⟩] [] (fun _ _ => none)).1 = []
    ∧ hostRoots [⟨0, 1, [⟨1, 5⟩]⟩] 1 = [5]
    ∧ (deleteSlabs [⟨0, 1, [⟨1, 5⟩]⟩] [] (fun _ _ => none)).2 = none :=
  ⟨by rfl, by rfl, by rfl⟩

/-- C9 (confirmed).  Whenever `migrateSlab` returns an error — from the
sanity checks, the download, the reconstruction or the re-upload — the slab
is returned exactly as passed in: its key, `MinShards` and every shard
entry unchanged, because the shard entries are overwritten only after the
re-upload has fully succeeded. -/
theorem renterd_c9_migrate_preserves (S : Nat) (lockRes : Nat → Option Nat)
    (dlRes : Nat → Nat → Nat → Nat → Except Nat (List Nat)) (dslow : Nat → Bool)
    (upOutcome : Contract → Nat → Nat × Option Nat) (uslow : Contract → Nat → Bool)
    (shuffle : List Contract → List Contract)
    (reconstructFn : List (List Nat) → Option (List (List Nat)))
    (schedD schedU : List Nat) (s : Slab) (contracts : List Contract) :
    (migrateSlab S lockRes dlRes dslow upOutcome uslow shuffle reconstructFn
        schedD schedU s contracts).err ≠ none →
    (migrateSlab S lockRes dlRes dslow upOutcome uslow shuffle reconstructFn
        schedD schedU s contracts).slab = s := by
  rw [migrateSlab]
  simp only []
  split_ifs
  · intro _; rfl
  · intro _; rfl
  · intro _; rfl
  · split
    · intro _; rfl
    · split
      · intro _; rfl
      · split
        · intro _; rfl
        · intro hx
          exact absurd rfl hx

/-- C9 witness: the `c5Slab` migration fails in the re-upload step and the
slab comes back untouched. -/
theorem renterd_c9_witness :
    (migrateSlab 2 noLock dlStub noSlowN honestUpload noSlowC id
        (reconstructModel 2 1 2) [] [] c5Slab c5Contracts).err ≠ none
    ∧ (migrateSlab 2 noLock dlStub noSlowN honestUpload noSlowC id
        (reconstructModel 2 1 2) [] [] c5Slab c5Contracts).slab = c5Slab :=
  ⟨by decide, renterd_c9_migrate_preserves 2 noLock dlStub noSlowN honestUpload noSlowC id
    (reconstructModel 2 1 2) [] [] c5Slab c5Contracts (by decide)⟩

end Renterd
